import Mathlib

/-!
Verification development for the Missoula Pro-Am tournament manager.

The Python sources are shallowly embedded below: pure Lean functions
mirror the source functions, floats are modelled as exact rationals
(`ℚ`), SQLAlchemy rows are records, database row collections are lists
in stored (primary key) order, and Python dicts are association lists
with insert-or-replace update semantics.
-/

namespace ProAm

/-- Floats of the source are modelled as exact rationals. -/
abbrev Val := ℚ

/-- Python's `str.lower()` (the repository's data is ASCII). -/
def pyLower (s : String) : String := String.mk (s.data.map Char.toLower)

/-- Python's `str.strip()`: whitespace removed from both ends. -/
def pyStrip (s : String) : String :=
  String.mk
    (((s.data.dropWhile Char.isWhitespace).reverse.dropWhile
        Char.isWhitespace).reverse)

/-- Python's `str.startswith(pre)`. -/
def pyStartsWith (s pre : String) : Bool :=
  pre.data.isPrefixOf s.data

/-- Dropping the first `n` characters of a string
(`key.split(':', 1)[1]` once the prefix length is known). -/
def pyDrop (s : String) (n : Nat) : String := String.mk (s.data.drop n)

/-- Insert-or-replace update for an association list, mirroring a Python
dict assignment `d[k] = v`: keys stay unique and insertion order is kept,
a fresh key is appended at the end. -/
def dictSet (l : List (String × α)) (k : String) (v : α) : List (String × α) :=
  if l.any (fun p => p.1 == k) then
    l.map (fun p => if p.1 == k then (k, v) else p)
  else
    l ++ [(k, v)]

/-- `d.pop(k, None)` on an association list with unique keys. -/
def dictPop (l : List (String × α)) (k : String) : List (String × α) :=
  l.filter (fun p => p.1 != k)

-- ---------------------------------------------------------------------------
-- services/report_cache.py
-- ---------------------------------------------------------------------------

/-- One `_cache` entry of services/report_cache.py:
`{'value': value, 'expires_at': time.time() + ttl_seconds}`.
Wall-clock instants (`time.time()`) are modelled as rationals and passed
explicitly to `get`/`set`. -/
structure CacheItem (α : Type) where
  value : α
  expires_at : ℚ
  deriving Repr, DecidableEq

/-- The process-wide `_cache` dict of services/report_cache.py. -/
abbrev ReportCache (α : Type) := List (String × CacheItem α)

namespace report_cache

/-- `get(key)` of services/report_cache.py.  Returns the hit (if any)
together with the cache left behind: an entry whose `expires_at` lies
strictly in the past is popped and `None` is returned. -/
def get (now : ℚ) (cache : ReportCache α) (key : String) :
    Option α × ReportCache α :=
  match cache.lookup key with
  | none => (none, cache)
  | some item =>
    if item.expires_at < now then (none, dictPop cache key)
    else (some item.value, cache)

/-- `set(key, value, ttl_seconds)` of services/report_cache.py:
`ttl_seconds = max(1, int(ttl_seconds))`, entry expires at
`time.time() + ttl_seconds`. -/
def set (now : ℚ) (cache : ReportCache α) (key : String) (value : α)
    (ttl_seconds : ℤ) : ReportCache α :=
  let ttl := max 1 ttl_seconds
  dictSet cache key { value := value, expires_at := now + (ttl : ℚ) }

end report_cache

-- ---------------------------------------------------------------------------
-- models/event.py — EventResult.calculate_best_run
-- ---------------------------------------------------------------------------

/-- The columns of models/event.py `EventResult` that the scoring engine
reads or writes.  `version_id` is not modelled (no claim concerns result
row versions); schema defaults are reproduced as field defaults. -/
structure ResultRow where
  competitor_id : Nat
  competitor_type : String := "college"
  competitor_name : String := ""
  result_value : Option Val := none
  run1_value : Option Val := none
  run2_value : Option Val := none
  best_run : Option Val := none
  final_position : Option Nat := none
  points_awarded : Int := 0
  payout_amount : Val := 0
  is_flagged : Bool := false
  status : String := "pending"
  deriving Repr, DecidableEq

/-- `EventResult.calculate_best_run` of models/event.py.  Note that when
both runs are present the source always takes `min(run1_value, run2_value)`
regardless of the event's scoring type. -/
def ResultRow.calculate_best_run (r : ResultRow) : ResultRow :=
  match r.run1_value, r.run2_value with
  | some v1, some v2 =>
    { r with best_run := some (min v1 v2), result_value := some (min v1 v2) }
  | some v1, none => { r with best_run := some v1, result_value := some v1 }
  | none, some v2 => { r with best_run := some v2, result_value := some v2 }
  | none, none => r

-- ---------------------------------------------------------------------------
-- models/event.py — Event columns used by scoring, config.py constants
-- ---------------------------------------------------------------------------

/-- The columns of models/event.py `Event` that scoring and heat
generation read.  `payouts` holds the parsed JSON dict
(position → amount); its string keys `str(position)` are modelled as the
numbers themselves. -/
structure EventCfg where
  id : Nat := 0
  name : String := ""
  event_type : String := "pro"
  gender : Option String := none
  scoring_type : String := "time"
  scoring_order : String := "lowest_wins"
  is_partnered : Bool := false
  requires_dual_runs : Bool := false
  stand_type : String := ""
  payouts : List (Nat × Val) := []
  deriving Repr, DecidableEq

/-- `Event.display_name` of models/event.py. -/
def EventCfg.display_name (e : EventCfg) : String :=
  match e.gender with
  | some "M" => "Men's " ++ e.name
  | some "F" => "Women's " ++ e.name
  | _ => e.name

/-- `Event.get_payout_for_position` of models/event.py
(`payouts.get(str(position), 0)`). -/
def EventCfg.get_payout_for_position (e : EventCfg) (position : Nat) : Val :=
  match e.payouts.lookup position with
  | some a => a
  | none => 0

/-- `config.PLACEMENT_POINTS.get(position, 0)` of config.py. -/
def PLACEMENT_POINTS (position : Nat) : Int :=
  match position with
  | 1 => 10
  | 2 => 7
  | 3 => 5
  | 4 => 3
  | 5 => 2
  | 6 => 1
  | _ => 0

-- ---------------------------------------------------------------------------
-- Competitors, teams (models/competitor.py, models/team.py)
-- ---------------------------------------------------------------------------

/-- The columns of models/competitor.py `CollegeCompetitor` that scoring
reads or writes. -/
structure CollegeComp where
  id : Nat
  team_id : Option Nat := none
  status : String := "active"
  individual_points : Int := 0
  deriving Repr, DecidableEq

/-- The columns of models/competitor.py `ProCompetitor` that scoring
reads or writes. -/
structure ProComp where
  id : Nat
  status : String := "active"
  total_earnings : Val := 0
  deriving Repr, DecidableEq

/-- The columns of models/team.py `Team` that scoring reads or writes. -/
structure TeamRow where
  id : Nat
  total_points : Int := 0
  deriving Repr, DecidableEq

/-- `Team.recalculate_points` of models/team.py: the team total becomes
the sum of the `individual_points` of its active members. -/
def recalculate_points (comps : List CollegeComp) (team_id : Nat) : Int :=
  ((comps.filter
      (fun c => c.team_id == some team_id && c.status == "active")).map
    (fun c => c.individual_points)).sum

/-- The database state one event's finalization touches: the event's
result rows, the competitor rows, the team rows and the event's status
column, each list in stored (primary key) order. -/
structure ScoringState where
  results : List ResultRow
  collegeComps : List CollegeComp := []
  proComps : List ProComp := []
  teams : List TeamRow := []
  eventStatus : String := "in_progress"
  deriving Repr, DecidableEq

-- ---------------------------------------------------------------------------
-- Stable sorting (Python's list.sort is stable)
-- ---------------------------------------------------------------------------

/-- Insert `x` behind every element it is not strictly below, so that a
fold of such inserts is a stable sort (Python's `list.sort`). -/
def insertStable (lt : α → α → Bool) (x : α) : List α → List α
  | [] => [x]
  | y :: ys => if lt x y then x :: y :: ys else y :: insertStable lt x ys

/-- Stable sort by the strict comparison `lt`: equal-comparing elements
keep their input order, as Python's `list.sort` guarantees. -/
def sortStable (lt : α → α → Bool) (xs : List α) : List α :=
  xs.foldl (fun acc x => insertStable lt x acc) []

/-- Ascending comparison on optional metrics: a missing metric sorts as
`float('inf')` (routes/scoring.py `_calculate_positions`, lowest_wins
branch). -/
def ascLt (a b : Option Val) : Bool :=
  match a, b with
  | none, _ => false
  | some _, none => true
  | some x, some y => decide (x < y)

/-- Descending comparison on optional metrics: a missing metric sorts as
`float('-inf')` and `reverse=True` flips the comparison
(routes/scoring.py `_calculate_positions`, highest_wins branch). -/
def descLt (a b : Option Val) : Bool :=
  match a, b with
  | none, _ => false
  | some _, none => true
  | some x, some y => decide (y < x)

-- ---------------------------------------------------------------------------
-- routes/scoring.py — _calculate_positions and _flag_score_outliers
-- ---------------------------------------------------------------------------

/-- The sort metric of `_calculate_positions`: `best_run` for dual-run
events, `result_value` otherwise. -/
def metric (cfg : EventCfg) (r : ResultRow) : Option Val :=
  if cfg.requires_dual_runs then r.best_run else r.result_value

/-- The row part of the undo pass of `_calculate_positions`: a row whose
awarded amount is non-zero has it cleared and its `final_position`
dropped; other rows are untouched (`if not awarded: continue`). -/
def undoRow (cfg : EventCfg) (r : ResultRow) : ResultRow :=
  if cfg.event_type == "college" then
    if r.points_awarded == 0 then r
    else { r with points_awarded := 0, final_position := none }
  else
    if r.payout_amount == 0 then r
    else { r with payout_amount := 0, final_position := none }

/-- The competitor part of the undo pass for college events: for every
row carrying awarded points, the competitor's `individual_points` drop
by that amount, clamped at zero
(`competitor.individual_points = max(0, competitor.individual_points - awarded)`).
The fold reads the pre-clear rows, as the Python loop reads each row's
`points_awarded` before zeroing that same row. -/
def undoCollegeComps (rows : List ResultRow) (cs : List CollegeComp) :
    List CollegeComp :=
  rows.foldl
    (fun cs r =>
      if r.points_awarded == 0 then cs
      else
        cs.map (fun c =>
          if c.id == r.competitor_id then
            { c with
                individual_points := max 0 (c.individual_points - r.points_awarded) }
          else c))
    cs

/-- The competitor part of the undo pass for pro events
(`competitor.total_earnings = max(0.0, competitor.total_earnings - awarded)`). -/
def undoProComps (rows : List ResultRow) (cs : List ProComp) : List ProComp :=
  rows.foldl
    (fun cs r =>
      if r.payout_amount == 0 then cs
      else
        cs.map (fun c =>
          if c.id == r.competitor_id then
            { c with total_earnings := max 0 (c.total_earnings - r.payout_amount) }
          else c))
    cs

/-- `event.results.filter_by(status='completed').all()`, paired with each
row's index in the stored results list (the Python row objects alias the
stored list, which the index tracks). -/
def completedEnum (rs : List ResultRow) : List (Nat × ResultRow) :=
  rs.enum.filter (fun p => p.2.status == "completed")

/-- The comparison `_calculate_positions` sorts by: ascending metric for
`lowest_wins`, descending otherwise (`reverse=True`). -/
def resultLt (cfg : EventCfg) (p q : Nat × ResultRow) : Bool :=
  if cfg.scoring_order == "lowest_wins" then
    ascLt (metric cfg p.2) (metric cfg q.2)
  else
    descLt (metric cfg p.2) (metric cfg q.2)

/-- The numeric values `_flag_score_outliers` collects from the ranked
results (rows whose metric is `None` raise in `float(v)` and are
skipped). -/
def outlierValues (cfg : EventCfg) (sorted : List (Nat × ResultRow)) :
    List Val :=
  sorted.filterMap (fun p => metric cfg p.2)

/-- The flagging predicate of `_flag_score_outliers`.  The source tests
`stdev > 0 and abs(fv - mean) > 2 * stdev` with `stdev` the sample
standard deviation; squaring both sides of the comparison (both are
nonnegative, squaring is strictly monotone there) gives the equivalent
rational form `variance > 0 and (fv - mean)^2 > 4 * variance`, which
avoids the irrational square root.  With fewer than three values every
ranked row is unflagged. -/
def flaggedOutlier (values : List Val) (m : Option Val) : Bool :=
  if values.length < 3 then false
  else
    match m with
    | none => false
    | some v =>
      let n : Val := values.length
      let mean := values.sum / n
      let variance := ((values.map (fun x => (x - mean) ^ 2)).sum) / (n - 1)
      decide (0 < variance ∧ 4 * variance < (v - mean) ^ 2)

/-- Writing one positioned row back into the stored list: the row at
stored index `i` receives its position, its points (college) or payout
(pro) and its outlier flag; rows without a position entry (not
completed) are untouched. -/
def applyAssignRow (cfg : EventCfg) (values : List Val)
    (assign : List (Nat × Nat)) (i : Nat) (r : ResultRow) : ResultRow :=
  match assign.lookup i with
  | none => r
  | some position =>
    if cfg.event_type == "college" then
      { r with final_position := some position,
               points_awarded := PLACEMENT_POINTS position,
               is_flagged := flaggedOutlier values (metric cfg r) }
    else
      { r with final_position := some position,
               payout_amount := cfg.get_payout_for_position position,
               is_flagged := flaggedOutlier values (metric cfg r) }

/-- The college award loop over the ranked rows
(`competitor.individual_points += points` for position `j+1` at ranked
index `j`). -/
def awardCollegeComps (sorted : List (Nat × ResultRow))
    (cs : List CollegeComp) : List CollegeComp :=
  sorted.enum.foldl
    (fun cs p =>
      cs.map (fun c =>
        if c.id == p.2.2.competitor_id then
          { c with
              individual_points := c.individual_points + PLACEMENT_POINTS (p.1 + 1) }
        else c))
    cs

/-- The pro award loop over the ranked rows
(`competitor.total_earnings += payout`). -/
def awardProComps (cfg : EventCfg) (sorted : List (Nat × ResultRow))
    (cs : List ProComp) : List ProComp :=
  sorted.enum.foldl
    (fun cs p =>
      cs.map (fun c =>
        if c.id == p.2.2.competitor_id then
          { c with
              total_earnings := c.total_earnings + cfg.get_payout_for_position (p.1 + 1) }
        else c))
    cs

/-- `touched_team_ids = {c.team_id for c in competitor_rows if c.team_id}`
where `competitor_rows` are the college competitors appearing among the
completed results.  Kept as a list; each team's recalculation is
independent, so the set's iteration order is immaterial. -/
def touchedTeamIds (sorted : List (Nat × ResultRow))
    (cs : List CollegeComp) : List Nat :=
  (cs.filter
      (fun c => sorted.any (fun p => p.2.competitor_id == c.id))).filterMap
    (fun c => c.team_id)

/-- `_calculate_positions(event)` of routes/scoring.py: undo previous
awards, rank the completed rows, assign positions 1, 2, 3, … in ranked
order, award points/payouts, recalculate touched team totals, flag
outliers and complete the event. -/
def calculate_positions (cfg : EventCfg) (s : ScoringState) : ScoringState :=
  let college := cfg.event_type == "college"
  let rs0 := s.results
  let collegeComps1 :=
    if college then undoCollegeComps rs0 s.collegeComps else s.collegeComps
  let proComps1 :=
    if college then s.proComps else undoProComps rs0 s.proComps
  let rs1 := rs0.map (undoRow cfg)
  let completed := completedEnum rs1
  if completed.isEmpty then
    { s with results := rs1, collegeComps := collegeComps1,
             proComps := proComps1, eventStatus := "in_progress" }
  else
    let sorted := sortStable (resultLt cfg) completed
    let values := outlierValues cfg sorted
    let assign := sorted.enum.map (fun p => (p.2.1, p.1 + 1))
    let results2 := rs1.enum.map (fun p => applyAssignRow cfg values assign p.1 p.2)
    let collegeComps2 :=
      if college then awardCollegeComps sorted collegeComps1 else collegeComps1
    let proComps2 :=
      if college then proComps1 else awardProComps cfg sorted proComps1
    let teams2 :=
      if college then
        let touched := touchedTeamIds sorted collegeComps2
        s.teams.map (fun t =>
          if touched.contains t.id then
            { t with total_points := recalculate_points collegeComps2 t.id }
          else t)
      else s.teams
    { results := results2, collegeComps := collegeComps2,
      proComps := proComps2, teams := teams2, eventStatus := "completed" }

-- ---------------------------------------------------------------------------
-- models/heat.py — Heat, and routes/scoring.py — _save_heat_results_submission
-- ---------------------------------------------------------------------------

/-- The columns of models/heat.py `Heat` used by scoring and heat
generation.  `competitors` is the parsed JSON id list;
`stand_assignments` the parsed JSON dict (its string keys
`str(competitor_id)` are modelled as the numbers themselves). -/
structure HeatRow where
  id : Nat := 0
  heat_number : Nat := 1
  run_number : Nat := 1
  competitors : List Nat := []
  stand_assignments : List (Nat × Nat) := []
  status : String := "pending"
  version_id : Nat := 1
  deriving Repr, DecidableEq

/-- A posted form value `request.form.get(f'result_{comp_id}')`:
missing/empty (falsy, skipped), a string `float()` rejects (counted
invalid), or a parsed number. -/
inductive FormVal where
  | absent : FormVal
  | invalid : FormVal
  | num : Val → FormVal
  deriving Repr, DecidableEq

/-- The posted form of a heat-results submission. -/
structure SaveForm where
  /-- `request.form.get('heat_version', type=int)` -/
  heat_version : Option Nat
  /-- `request.form.get(f'result_{comp_id}')` -/
  result : Nat → FormVal
  /-- `request.form.get(f'status_{comp_id}', 'completed')` -/
  status : Nat → String

/-- The response metadata `_save_heat_results_submission` returns. -/
structure SaveOutcome where
  ok : Bool
  category : String
  status_code : Nat
  deriving Repr, DecidableEq

/-- The state one event's heat scoring touches: the event's heats plus
the scoring state. -/
structure EventState where
  heats : List HeatRow
  scoring : ScoringState
  deriving Repr, DecidableEq

/-- The value write of the result-entry loop of
`_save_heat_results_submission`: for a dual-run event the parsed value
lands in `run1_value` when the heat's `run_number` is 1 and in
`run2_value` otherwise, followed by `calculate_best_run`; for other
events it lands in `result_value`. -/
def applyResultValue (cfg : EventCfg) (run_number : Nat) (v : Val)
    (r : ResultRow) : ResultRow :=
  if cfg.requires_dual_runs then
    (if run_number == 1 then { r with run1_value := some v }
     else { r with run2_value := some v }).calculate_best_run
  else { r with result_value := some v }

/-- One iteration of the result-entry loop of
`_save_heat_results_submission`: skip missing values, count unparseable
ones, otherwise create the row on first sight and write the parsed
value and the posted status.  The accumulator is
(results, changes_written, invalid_entries). -/
def processEntry (cfg : EventCfg) (competitorName : Nat → String)
    (run_number : Nat) (form : SaveForm)
    (acc : List ResultRow × Nat × Nat) (comp_id : Nat) :
    List ResultRow × Nat × Nat :=
  let (results, changes, invalid) := acc
  match form.result comp_id with
  | .absent => acc
  | .invalid => (results, changes, invalid + 1)
  | .num v =>
    let results :=
      if results.any (fun r =>
          r.competitor_id == comp_id && r.competitor_type == cfg.event_type) then
        results
      else
        results ++ [{ competitor_id := comp_id,
                      competitor_type := cfg.event_type,
                      competitor_name := competitorName comp_id }]
    let results := results.map (fun r =>
      if r.competitor_id == comp_id && r.competitor_type == cfg.event_type then
        { applyResultValue cfg run_number v r with status := form.status comp_id }
      else r)
    (results, changes + 1, invalid)

/-- Marking the heat completed on the success path.  SQLAlchemy's
`version_id_col` mapping on `Heat` increments `version_id` whenever the
flushed UPDATE carries a net change; setting `status` to a value it
already has produces no net change and no bump. -/
def markHeatCompleted (h : HeatRow) : HeatRow :=
  { h with status := "completed",
           version_id := if h.status == "completed" then h.version_id
                         else h.version_id + 1 }

/-- `_save_heat_results_submission` of routes/scoring.py.  The version
check precedes every write: a stale `heat_version` returns 409 leaving
the state untouched, an empty submission returns 400, otherwise results
are written, the heat completes (bumping its version), and when every
heat of a non-dual-run event is complete `_calculate_positions` runs. -/
def save_heat_results_submission (cfg : EventCfg)
    (competitorName : Nat → String) (s : EventState) (heat_id : Nat)
    (form : SaveForm) : EventState × SaveOutcome :=
  match s.heats.find? (fun h => h.id == heat_id) with
  | none => (s, { ok := false, category := "error", status_code := 404 })
  | some heat =>
    if form.heat_version != some heat.version_id then
      (s, { ok := false, category := "error", status_code := 409 })
    else
      let (results1, changes, invalid) :=
        heat.competitors.foldl
          (processEntry cfg competitorName heat.run_number form)
          (s.scoring.results, 0, 0)
      if changes == 0 then
        (s, { ok := false, category := "warning", status_code := 400 })
      else
        let heats1 := s.heats.map (fun h =>
          if h.id == heat_id then markHeatCompleted h else h)
        let scoring1 := { s.scoring with results := results1 }
        let all_heats_complete := heats1.all (fun h => h.status == "completed")
        let scoring2 :=
          if all_heats_complete && !cfg.requires_dual_runs then
            calculate_positions cfg scoring1
          else scoring1
        ({ heats := heats1, scoring := scoring2 },
         { ok := true,
           category := if invalid == 0 then "success" else "warning",
           status_code := 200 })

-- ---------------------------------------------------------------------------
-- services/heat_generator.py — string helpers and gear-sharing checks
-- ---------------------------------------------------------------------------

/-- Boolean prefix test on character lists. -/
def listIsPrefixOf : List Char → List Char → Bool
  | [], _ => true
  | _ :: _, [] => false
  | a :: p, b :: s => a == b && listIsPrefixOf p s

/-- Boolean substring test on character lists (Python's `sub in s`;
the empty string is contained in everything). -/
def listContainsSub : List Char → List Char → Bool
  | [], sub => sub.isEmpty
  | c :: rest, sub => listIsPrefixOf sub (c :: rest) || listContainsSub rest sub

/-- Python's `sub in s` on strings. -/
def strContains (s sub : String) : Bool :=
  listContainsSub s.toList sub.toList

/-- `_norm_name` of services/heat_generator.py:
`str(value or '').strip().lower()`. -/
def normName (s : String) : String :=
  pyLower (pyStrip s)

/-- `_normalize_name` of services/heat_generator.py: lowercase and keep
only alphanumeric characters. -/
def normalizeName (s : String) : String :=
  String.mk ((pyLower s).data.filter Char.isAlphanum)

/-- The competitor dict `_get_event_competitors` hands to the heat
distribution functions. -/
structure GearComp where
  id : Nat
  name : String := ""
  gender : String := ""
  is_left_handed : Bool := false
  gear_sharing : List (String × String) := []
  partner_name : String := ""
  deriving Repr, DecidableEq

/-- `_gear_key_matches_event` of services/heat_generator.py.  The
embedding always has an event in hand, so the `if not event` guard of
the source is vacuous here. -/
def gear_key_matches_event (key : String) (ev : EventCfg) : Bool :=
  let key := pyLower (pyStrip key)
  let event_name := pyLower ev.display_name
  if key == toString ev.id then true
  else if pyStartsWith key "category:" then
    -- key.split(':', 1)[1] on a string starting with "category:"
    let category := pyDrop key 9
    if category == "crosscut" then
      ev.stand_type == "saw_hand" ||
        ["buck", "saw", "crosscut"].any (fun token => strContains event_name token)
    else if category == "chainsaw" then
      ["stock saw", "power saw", "hot saw"].any
        (fun token => strContains event_name token)
    else false
  else strContains event_name key

/-- `_competitors_share_gear_for_event` of services/heat_generator.py:
a partner-name rule of either competitor naming the other, or a shared
`group:` token, on a gear-sharing key matching the event. -/
def competitors_share_gear_for_event (c1 c2 : GearComp) (ev : EventCfg) : Bool :=
  let name1 := pyLower (pyStrip c1.name)
  let name2 := pyLower (pyStrip c2.name)
  (c1.gear_sharing.any (fun kv =>
     gear_key_matches_event kv.1 ev &&
       (let vt := pyStrip kv.2
        !(vt == "") &&
          (pyLower vt == name2 ||
           (pyStartsWith vt "group:" &&
            c2.gear_sharing.any (fun kv2 =>
              gear_key_matches_event kv2.1 ev && pyStrip kv2.2 == vt)))))) ||
  c2.gear_sharing.any (fun kv2 =>
    gear_key_matches_event kv2.1 ev && pyLower (pyStrip kv2.2) == name1)

/-- `_has_gear_sharing_conflict` of services/heat_generator.py. -/
def has_gear_sharing_conflict (comp : GearComp) (heat : List GearComp)
    (ev : EventCfg) : Bool :=
  heat.any (fun other => competitors_share_gear_for_event comp other ev)

-- ---------------------------------------------------------------------------
-- services/heat_generator.py — snake-draft distribution
-- ---------------------------------------------------------------------------

/-- `_advance_snake_index` of services/heat_generator.py.  The index is
kept as an integer exactly as in the source (the `< 0` branch). -/
def advance_snake_index (heat_idx direction : Int) (num_heats : Nat) :
    Int × Int :=
  let heat_idx := heat_idx + direction
  if heat_idx ≥ (num_heats : Int) then ((num_heats : Int) - 1, -1)
  else if heat_idx < 0 then (0, 1)
  else (heat_idx, direction)

/-- `_build_partner_units` of services/heat_generator.py: singleton
units unless the event is partnered, in which case mutually referencing
pairs form one unit.  `by_name` is the dict comprehension (later
entries win); `used` the growing id set. -/
def build_partner_units (competitors : List GearComp) (ev : EventCfg) :
    List (List GearComp) :=
  if !ev.is_partnered then competitors.map (fun c => [c])
  else
    let by_name := competitors.foldl (fun d c => dictSet d (normName c.name) c) []
    let step := fun (acc : List (List GearComp) × List Nat) (comp : GearComp) =>
      let (units, used) := acc
      if used.contains comp.id then acc
      else
        let partner_name := normName comp.partner_name
        let partner :=
          if partner_name == "" then none else by_name.lookup partner_name
        match partner with
        | some p =>
          if !used.contains p.id &&
             (normName p.partner_name == normName comp.name ||
              partner_name == normName p.name) then
            (units ++ [[comp, p]], used ++ [comp.id, p.id])
          else (units ++ [[comp]], used ++ [comp.id])
        | none => (units ++ [[comp]], used ++ [comp.id])
    (competitors.foldl step ([], [])).1

/-- The first pass of `_generate_standard_heats`: up to `num_heats`
snake steps looking for a heat with capacity and no gear-sharing
conflict; on success the unit is appended to that heat and the walk
stops there. -/
def tryPlaceConflictFree (ev : EventCfg) (unit : List GearComp)
    (max_per_heat num_heats : Nat) :
    Nat → List (List GearComp) → Int → Int →
      Option (List (List GearComp)) × Int × Int
  | 0, _, idx, dir => (none, idx, dir)
  | n + 1, heats, idx, dir =>
    let cur := heats.getD idx.toNat []
    if cur.length + unit.length ≤ max_per_heat &&
       !(unit.any (fun comp => has_gear_sharing_conflict comp cur ev)) then
      (some (heats.set idx.toNat (cur ++ unit)), idx, dir)
    else
      let (idx', dir') := advance_snake_index idx dir num_heats
      tryPlaceConflictFree ev unit max_per_heat num_heats n heats idx' dir'

/-- The fallback pass of `_generate_standard_heats`: up to `num_heats`
snake steps looking for any heat with capacity, conflicts ignored. -/
def tryPlaceAny (unit : List GearComp) (max_per_heat num_heats : Nat) :
    Nat → List (List GearComp) → Int → Int →
      Option (List (List GearComp)) × Int × Int
  | 0, _, idx, dir => (none, idx, dir)
  | n + 1, heats, idx, dir =>
    if (heats.getD idx.toNat []).length + unit.length ≤ max_per_heat then
      (some (heats.set idx.toNat (heats.getD idx.toNat [] ++ unit)), idx, dir)
    else
      let (idx', dir') := advance_snake_index idx dir num_heats
      tryPlaceAny unit max_per_heat num_heats n heats idx' dir'

/-- One unit of the placement loop of `_generate_standard_heats`.  The
accumulator carries the heats, the snake index and direction, and a
ghost flag recording whether any unit ever reached the fallback pass
(the flag has no influence on the computed heats). -/
def placeUnit (ev : EventCfg) (max_per_heat num_heats : Nat)
    (acc : List (List GearComp) × Int × Int × Bool)
    (unit : List GearComp) : List (List GearComp) × Int × Int × Bool :=
  let (heats, idx, dir, fb) := acc
  let (res, idx, dir) :=
    tryPlaceConflictFree ev unit max_per_heat num_heats num_heats heats idx dir
  let (heats, idx, dir, fb) :=
    match res with
    | some heats' => (heats', idx, dir, fb)
    | none =>
      let (res2, idx2, dir2) :=
        tryPlaceAny unit max_per_heat num_heats num_heats heats idx dir
      match res2 with
      | some heats' => (heats', idx2, dir2, true)
      | none => (heats, idx2, dir2, true)
  let (idx, dir) := advance_snake_index idx dir num_heats
  (heats, idx, dir, fb)

/-- `_generate_standard_heats` of services/heat_generator.py, paired
with the ghost fallback flag. -/
def generate_standard_heats_fb (competitors : List GearComp)
    (num_heats max_per_heat : Nat) (ev : EventCfg) :
    List (List GearComp) × Bool :=
  let units := build_partner_units competitors ev
  let init : List (List GearComp) := List.replicate num_heats []
  let (heats, _, _, fb) :=
    units.foldl (placeUnit ev max_per_heat num_heats) (init, 0, 1, false)
  (heats, fb)

/-- `_generate_standard_heats` of services/heat_generator.py. -/
def generate_standard_heats (competitors : List GearComp)
    (num_heats max_per_heat : Nat) (ev : EventCfg) : List (List GearComp) :=
  (generate_standard_heats_fb competitors num_heats max_per_heat ev).1

/-- `_generate_saw_heats` of services/heat_generator.py: cap the heat
size at 4 and recompute the heat count (`math.ceil` as exact natural
ceiling division), then distribute normally. -/
def generate_saw_heats (competitors : List GearComp)
    (_num_heats max_per_heat : Nat) (ev : EventCfg) : List (List GearComp) :=
  let actual_max := min max_per_heat 4
  let num_heats := (competitors.length + actual_max - 1) / actual_max
  generate_standard_heats competitors num_heats actual_max ev

-- ---------------------------------------------------------------------------
-- config.py STAND_CONFIGS and stand assignment (generate_event_heats 48–103)
-- ---------------------------------------------------------------------------

/-- The fields of a config.py `STAND_CONFIGS` entry that the heat
generator reads (`total` and `specific_stands`; labels, groups and the
springboard handedness flag are display-only). -/
structure StandConfig where
  total : Nat
  specific_stands : Option (List Nat) := none
  deriving Repr, DecidableEq

/-- `config.STAND_CONFIGS` of config.py. -/
def STAND_CONFIGS : List (String × StandConfig) := [
  ("springboard", { total := 4 }),
  ("underhand", { total := 5 }),
  ("standing_block", { total := 5 }),
  ("cookie_stack", { total := 5 }),
  ("saw_hand", { total := 8 }),
  ("stock_saw", { total := 2, specific_stands := some [1, 2] }),
  ("hot_saw", { total := 4, specific_stands := some [1, 2, 3, 4] }),
  ("obstacle_pole", { total := 2 }),
  ("speed_climb", { total := 2 }),
  ("chokerman", { total := 2 }),
  ("axe_throw", { total := 1 }),
  ("caber", { total := 1 }),
  ("peavey", { total := 1 }),
  ("pulp_toss", { total := 1 }),
  ("birling", { total := 1 })]

/-- `config.STAND_CONFIGS.get(event.stand_type, {})`. -/
def standConfigFor (ev : EventCfg) : Option StandConfig :=
  STAND_CONFIGS.lookup ev.stand_type

/-- `stand_config.get('total', 4)`. -/
def maxPerHeatFor (ev : EventCfg) : Nat :=
  match standConfigFor ev with
  | some sc => sc.total
  | none => 4

/-- `_stand_numbers_for_event` of services/heat_generator.py: college
Stock Saw runs on stands [7, 8]; otherwise the configured
`specific_stands` (when present and non-empty, Python truthiness) or
`range(1, max_per_heat + 1)`, truncated to `max_per_heat`. -/
def stand_numbers_for_event (ev : EventCfg) (max_per_heat : Nat)
    (sc : Option StandConfig) : List Nat :=
  if ev.event_type == "college" &&
     normalizeName ev.name == normalizeName "Stock Saw" then
    [7, 8].take max_per_heat
  else
    match sc with
    | some cfg =>
      match cfg.specific_stands with
      | some specific =>
        if specific.isEmpty then List.range' 1 max_per_heat
        else specific.take max_per_heat
      | none => List.range' 1 max_per_heat
    | none => List.range' 1 max_per_heat

/-- The Heat-row construction of `generate_event_heats` (lines 66–98):
one run-1 heat per distributed list with stand `stand_numbers[i]` for
the competitor at slot `i`, and for dual-run events a mirrored run-2
heat with the stand list reversed.  The `zip` realises the positional
indexing `stand_numbers[i]`, exact whenever each heat has at most
`|stand_numbers|` competitors (Python would raise `IndexError` beyond
that, creating no heats at all). -/
def makeGeneratedHeats (ev : EventCfg) (heats : List (List GearComp))
    (stand_numbers : List Nat) : List HeatRow :=
  let run1 := heats.enum.map (fun p =>
    { heat_number := p.1 + 1, run_number := 1,
      competitors := p.2.map (fun c => c.id),
      stand_assignments := (p.2.map (fun c => c.id)).zip stand_numbers
      : HeatRow })
  let run2 :=
    if ev.requires_dual_runs then
      heats.enum.map (fun p =>
        { heat_number := p.1 + 1, run_number := 2,
          competitors := p.2.map (fun c => c.id),
          stand_assignments := (p.2.map (fun c => c.id)).zip stand_numbers.reverse
          : HeatRow })
    else []
  run1 ++ run2

/-- `generate_event_heats` of services/heat_generator.py restricted to
the saw_hand and standard distribution branches (the springboard branch
and the list-only college shortcut are outside the modelled fragment;
no claim concerns them).  Returns the created Heat rows and the
function's `num_heats` return value. -/
def generate_event_heats (ev : EventCfg) (competitors : List GearComp) :
    List HeatRow × Nat :=
  let sc := standConfigFor ev
  let max_per_heat := maxPerHeatFor ev
  let num_heats := (competitors.length + max_per_heat - 1) / max_per_heat
  let heats :=
    if ev.stand_type == "saw_hand" then
      generate_saw_heats competitors num_heats max_per_heat ev
    else
      generate_standard_heats competitors num_heats max_per_heat ev
  let stand_numbers := stand_numbers_for_event ev max_per_heat sc
  (makeGeneratedHeats ev heats stand_numbers, num_heats)

-- ---------------------------------------------------------------------------
-- services/birling_bracket.py
-- ---------------------------------------------------------------------------

/-- One match dict of services/birling_bracket.py; `needed` is only
meaningful on the true-finals match, `is_bye` on round-1 matches.  The
write-only `eliminated_position` key is dropped (nothing reads it). -/
structure BMatch where
  match_id : String
  round : String
  competitor1 : Option Nat := none
  competitor2 : Option Nat := none
  winner : Option Nat := none
  loser : Option Nat := none
  is_bye : Bool := false
  needed : Bool := false
  deriving Repr, DecidableEq

/-- The `bracket_data` JSON blob a `BirlingBracket` stores on its
event's `payouts` column.  `placements` maps `str(competitor_id)` to a
final position. -/
structure BracketData where
  winners : List (List BMatch)
  losers : List (List BMatch)
  finals : BMatch
  true_finals : BMatch
  competitors : List (Nat × String)
  seeding : List Nat
  current_round : String := "winners_1"
  placements : List (String × Nat) := []
  deriving Repr, DecidableEq

/-- Fuelled loop body for `winnersRounds`; the count at least halves
each round, so any fuel above the start count is inexhaustible. -/
def winnersRoundsAux : Nat → Nat → Nat → List (List BMatch)
  | 0, _, _ => []
  | _, 0, _ => []
  | fuel + 1, m + 1, round_num =>
    ((List.range (m + 1)).map (fun i =>
      ({ match_id := "W" ++ toString round_num ++ "_" ++ toString (i + 1),
         round := "winners_" ++ toString round_num } : BMatch))) ::
      winnersRoundsAux fuel ((m + 1) / 2) (round_num + 1)

/-- The winners-round skeleton loop of `generate_bracket`
(`while matches_in_round >= 1`), producing empty TBD matches. -/
def winnersRounds (matches_in_round round_num : Nat) : List (List BMatch) :=
  winnersRoundsAux (matches_in_round + 1) matches_in_round round_num

/-- `2 ** math.ceil(math.log2(n))` computed exactly: the least power of
two at least `n` (for `n ≥ 1`); the fuel of `n` steps always suffices. -/
def leastPow2GeAux (n : Nat) : Nat → Nat → Nat
  | 0, acc => acc
  | fuel + 1, acc => if n ≤ acc then acc else leastPow2GeAux n fuel (2 * acc)

/-- `2 ** math.ceil(math.log2(n))` of `generate_bracket`. -/
def leastPow2Ge (n : Nat) : Nat := leastPow2GeAux n n 1

/-- `_generate_losers_bracket` of services/birling_bracket.py: one
losers round per winners round, sized `bracket_size // 4` for the first
and `max(1, bracket_size // 2^(w_round + 2))` after, empty rounds
skipped. -/
def losersRounds (bracket_size winners_round_count : Nat) :
    List (List BMatch) :=
  (List.range winners_round_count).foldl
    (fun acc w_round =>
      let num_matches :=
        if w_round == 0 then bracket_size / 4
        else max 1 (bracket_size / 2 ^ (w_round + 2))
      let idx := acc.length + 1
      let round_matches := (List.range num_matches).map (fun i =>
        ({ match_id := "L" ++ toString idx ++ "_" ++ toString (i + 1),
           round := "losers_" ++ toString idx } : BMatch))
      if round_matches.isEmpty then acc else acc ++ [round_matches])
    []

/-- `BirlingBracket.generate_bracket`: seed, pair `1 vs N, 2 vs N-1, …`
into a power-of-two bracket with auto-advancing byes, build the empty
later rounds and the finals placeholders.  `none` models the
`ValueError` for fewer than two competitors. -/
def generate_bracket (competitors : List (Nat × String))
    (seeding : Option (List Nat)) : Option BracketData :=
  let num_competitors := competitors.length
  if num_competitors < 2 then none
  else
    let seeded :=
      match seeding with
      | some s => s
      | none => competitors.map (fun c => c.1)
    -- 2 ** math.ceil(math.log2(n))
    let bracket_size := leastPow2Ge num_competitors
    let pairings := (List.range (bracket_size / 2)).map (fun i =>
      let comp1 := seeded.get? i
      let comp2 := seeded.get? (bracket_size - 1 - i)
      let m : BMatch :=
        { match_id := "W1_" ++ toString (i + 1), round := "winners_1",
          competitor1 := comp1, competitor2 := comp2,
          is_bye := comp1.isNone || comp2.isNone }
      if comp1.isNone && comp2.isSome then { m with winner := comp2 }
      else if comp2.isNone && comp1.isSome then { m with winner := comp1 }
      else m)
    some
      { winners := pairings :: winnersRounds (pairings.length / 2) 2,
        losers := losersRounds bracket_size
          (pairings :: winnersRounds (pairings.length / 2) 2).length,
        finals := { match_id := "F1", round := "finals" },
        true_finals := { match_id := "F2", round := "true_finals" },
        competitors := competitors,
        seeding := seeded }

/-- `BirlingBracket._find_match`: winners rounds first, then losers,
then the finals and true finals. -/
def find_match (b : BracketData) (match_id : String) : Option BMatch :=
  match b.winners.flatten.find? (fun m => m.match_id == match_id) with
  | some m => some m
  | none =>
    match b.losers.flatten.find? (fun m => m.match_id == match_id) with
    | some m => some m
    | none =>
      if b.finals.match_id == match_id then some b.finals
      else if b.true_finals.match_id == match_id then some b.true_finals
      else none

/-- In-place mutation of the found match: match ids are unique by
construction, so rewriting every match of that id equals the source's
single-object mutation. -/
def updateMatch (b : BracketData) (match_id : String) (f : BMatch → BMatch) :
    BracketData :=
  { b with
      winners := b.winners.map (fun r =>
        r.map (fun m => if m.match_id == match_id then f m else m)),
      losers := b.losers.map (fun r =>
        r.map (fun m => if m.match_id == match_id then f m else m)),
      finals := if b.finals.match_id == match_id then f b.finals else b.finals,
      true_finals :=
        if b.true_finals.match_id == match_id then f b.true_finals
        else b.true_finals }

/-- `str(competitor_id)` on the possibly absent loser of a match. -/
def pKey : Option Nat → String
  | some n => toString n
  | none => "None"

/-- `BirlingBracket._record_elimination`: the first eliminated
competitor receives position N (last place), each later elimination one
position better. -/
def record_elimination (b : BracketData) (competitor_id : Option Nat) :
    BracketData :=
  let current_eliminations := b.placements.length
  let total_competitors := b.competitors.length
  let position := total_competitors - current_eliminations
  { b with placements := dictSet b.placements (pKey competitor_id) position }

/-- `BirlingBracket.record_match_result`.  `none` models the
`ValueError`s for an unknown match or a winner not in the match.  Note
that in the source `_advance_winner`, `_drop_to_losers` and
`_advance_loser_winner` are all `pass` stubs, so winners-bracket results
only record winner/loser on the match itself. -/
def record_match_result (b : BracketData) (match_id : String)
    (winner_id : Nat) : Option BracketData :=
  match find_match b match_id with
  | none => none
  | some m =>
    let loser :=
      if m.competitor1 == some winner_id then some m.competitor2
      else if m.competitor2 == some winner_id then some m.competitor1
      else none
    match loser with
    | none => none
    | some loser_id =>
      let b := updateMatch b match_id (fun m =>
        { m with winner := some winner_id, loser := loser_id })
      if pyStartsWith match_id "W" then
        -- self._advance_winner(match) — `pass` stub in the source
        -- self._drop_to_losers(match) — `pass` stub in the source
        some b
      else if pyStartsWith match_id "L" then
        -- self._advance_loser_winner(match) — `pass` stub in the source
        some (record_elimination b loser_id)
      else if match_id == "F1" then
        if some winner_id == m.competitor2 then
          some (updateMatch b "F2" (fun tf =>
            { tf with needed := true, competitor1 := m.competitor1,
                      competitor2 := m.competitor2 }))
        else
          some { b with
                   placements := dictSet
                     (dictSet b.placements (toString winner_id) 1)
                     (pKey loser_id) 2 }
      else if match_id == "F2" then
        some { b with
                 placements := dictSet
                   (dictSet b.placements (toString winner_id) 1)
                   (pKey loser_id) 2 }
      else some b

-- ---------------------------------------------------------------------------
-- services/partnered_axe.py
-- ---------------------------------------------------------------------------

/-- One pair dict of the Partnered Axe Throw state blob. -/
structure AxePair where
  pair_id : Nat
  competitor1 : Nat × String
  competitor2 : Nat × String
  prelim_score : Option Int := none
  final_score : Option Int := none
  final_position : Option Nat := none
  deriving Repr, DecidableEq

/-- The Partnered Axe Throw state blob stored on the event. -/
structure AxeState where
  stage : String := "prelims"
  prelim_results : List AxePair := []
  finalists : List AxePair := []
  final_results : List AxePair := []
  pairs : List AxePair := []
  deriving Repr, DecidableEq

/-- Descending comparison on the integer scores the axe-throw sorts by
(`reverse=True`); the lists sorted all carry `some` scores, matching the
source where a `None` score would raise in the comparison. -/
def optIntDescLt (a b : Option Int) : Bool :=
  match a, b with
  | none, _ => false
  | some _, none => true
  | some x, some y => decide (y < x)

/-- `PartneredAxeThrow.get_prelim_standings`: scored pairs sorted by
prelim score, highest first. -/
def get_prelim_standings (s : AxeState) : List AxePair :=
  sortStable (fun a b => optIntDescLt a.prelim_score b.prelim_score)
    (s.pairs.filter (fun p => p.prelim_score.isSome))

/-- `PartneredAxeThrow.can_advance_to_finals`: at least four pairs and
all of them scored. -/
def can_advance_to_finals (s : AxeState) : Bool :=
  let scored := s.pairs.filter (fun p => p.prelim_score.isSome)
  4 ≤ scored.length && scored.length == s.pairs.length

/-- `PartneredAxeThrow.advance_to_finals`: top four of the prelim
standings become the finalists (`none` models the `ValueError`). -/
def advance_to_finals (s : AxeState) : Option AxeState :=
  if !can_advance_to_finals s then none
  else
    some { s with finalists := (get_prelim_standings s).take 4,
                  stage := "finals" }

/-- `PartneredAxeThrow._save_event_results`: one `EventResult` row per
individual of each finalist pair, carrying the pair's position and its
final score as `result_value`.  Rows for non-finalist pairs are not
written. -/
def save_axe_event_results (finalists : List AxePair) : List ResultRow :=
  finalists.flatMap (fun pair =>
    [{ competitor_id := pair.competitor1.1, competitor_type := "pro",
       competitor_name := pair.competitor1.2,
       result_value := pair.final_score.map (fun h => (h : Val)),
       final_position := pair.final_position },
     { competitor_id := pair.competitor2.1, competitor_type := "pro",
       competitor_name := pair.competitor2.2,
       result_value := pair.final_score.map (fun h => (h : Val)),
       final_position := pair.final_position }])

/-- `PartneredAxeThrow.record_final_result`: store the finalist's score;
once all four are in, rank the finalists by score (highest first),
assign positions 1…, copy them onto the main pairs list, complete the
stage and write the finalist `EventResult` rows (returned as the second
component).  In the source the finalist dicts alias the pairs dicts, so
a score is visible on `pairs` immediately; this value model copies it
there on completion, which is when the source's explicit copy runs and
the only point the claims observe. -/
def record_final_result (s : AxeState) (pair_id : Nat) (hits : Int) :
    AxeState × List ResultRow :=
  let finalists := s.finalists.map (fun p =>
    if p.pair_id == pair_id then { p with final_score := some hits } else p)
  let all_scored := finalists.all (fun p => p.final_score.isSome)
  if all_scored then
    let sorted_finals :=
      sortStable (fun a b => optIntDescLt a.final_score b.final_score) finalists
    let sorted_finals := sorted_finals.enum.map (fun q =>
      { q.2 with final_position := some (q.1 + 1) })
    let pairs := s.pairs.map (fun mp =>
      match sorted_finals.find? (fun p => p.pair_id == mp.pair_id) with
      | some p => { mp with final_position := p.final_position,
                            final_score := p.final_score }
      | none => mp)
    let s' := { s with pairs := pairs, finalists := sorted_finals,
                       final_results := sorted_finals, stage := "completed" }
    (s', save_axe_event_results s'.finalists)
  else
    ({ s with finalists := finalists }, [])

/-- `PartneredAxeThrow.get_full_standings`: the final results followed
by the non-finalist pairs in prelim order at positions 5, 6, …. -/
def get_full_standings (s : AxeState) : List AxePair :=
  let finalists_ids := s.finalists.map (fun p => p.pair_id)
  let prelim_standings := get_prelim_standings s
  let nonfinalists :=
    prelim_standings.filter (fun p => !(finalists_ids.contains p.pair_id))
  s.final_results ++
    nonfinalists.enum.map (fun q => { q.2 with final_position := some (5 + q.1) })

-- ---------------------------------------------------------------------------
-- Concrete instances used by counterexamples and witnesses
-- ---------------------------------------------------------------------------

/-- A dual-run hits event (the configuration class claim C3 speaks
about; the repository's configured dual-run events are all time
events). -/
def hitsDualCfg : EventCfg :=
  { name := "Example Hits", event_type := "pro", scoring_type := "hits",
    scoring_order := "highest_wins", requires_dual_runs := true }

/-- A run-2 heat holding competitor 1, version 1. -/
def hitsDualHeat : HeatRow :=
  { id := 10, heat_number := 1, run_number := 2, competitors := [1] }

/-- A stored run-1 result of value 5 for competitor 1. -/
def hitsDualRow : ResultRow :=
  { competitor_id := 1, competitor_type := "pro", competitor_name := "p1",
    run1_value := some 5 }

/-- Submission of value 3 for competitor 1 against version 1. -/
def hitsDualForm : SaveForm :=
  { heat_version := some 1,
    result := fun cid => if cid == 1 then FormVal.num 3 else FormVal.absent,
    status := fun _ => "completed" }

/-- Four Birling competitors seeded in registration order. -/
def birlingComps4 : List (Nat × String) := [(1, "a"), (2, "b"), (3, "c"), (4, "d")]

/-- A non-partnered pro event on a four-stand type (hot_saw) — the
standard snake-draft branch. -/
def evHot : EventCfg :=
  { name := "Hot Saw", event_type := "pro", stand_type := "hot_saw" }

/-- Seventeen entrants with no gear-sharing notes. -/
def comps17 : List GearComp := (List.range 17).map (fun i => { id := i + 1 })

/-- A competitor with no gear notes. -/
def gAlice : GearComp := { id := 1, name := "Alice" }

/-- A competitor whose crosscut gear entry names Alice. -/
def gNamesAlice (i : Nat) (nm : String) : GearComp :=
  { id := i, name := nm, gear_sharing := [("category:crosscut", "alice")] }

/-- A pro saw_hand event (crosscut category). -/
def evSaw : EventCfg :=
  { name := "Single Buck", event_type := "pro", gender := some "M",
    stand_type := "saw_hand" }

/-- Seven saw_hand entrants: Alice, then Carl/Cora/Cody (each sharing
crosscut gear with Alice), two unrelated competitors, and Bob, who also
shares crosscut gear with Alice. -/
def sawComps7 : List GearComp :=
  [gAlice, gNamesAlice 2 "Carl", gNamesAlice 3 "Cora", gNamesAlice 4 "Cody",
   { id := 5, name := "Zed" }, { id := 6, name := "Zoe" },
   gNamesAlice 7 "Bob"]

/-- The stand set claim C8 compares against, stated from the spec's
words: the set defined by the event's stand_type in `STAND_CONFIGS`
(its `specific_stands` when configured, otherwise stands 1..total),
with the special case that a college Stock Saw event uses stands
{7, 8}. -/
def claimAllowedStands (ev : EventCfg) (sc : StandConfig) : List Nat :=
  if ev.event_type == "college" &&
     normalizeName ev.name == normalizeName "Stock Saw" then [7, 8]
  else
    match sc.specific_stands with
    | some specific => specific
    | none => List.range' 1 sc.total

/-- A college Stock Saw event (stand_type stock_saw, total 2). -/
def evStockSaw : EventCfg :=
  { name := "Stock Saw", event_type := "college", gender := some "M",
    stand_type := "stock_saw", scoring_type := "time" }

/-- A registered axe-throw pair with members `a` and `b`. -/
def mkAxePair (i a b : Nat) (pre fin : Option Int) : AxePair :=
  { pair_id := i, competitor1 := (a, "p" ++ toString a),
    competitor2 := (b, "p" ++ toString b),
    prelim_score := pre, final_score := fin }

/-- A Partnered Axe Throw in its finals stage: five registered pairs
with prelim scores [30, 28, 27, 25, 20]; the top four are finalists,
three of them already hold finals scores.  Pair 5 (members 9 and 10) is
the non-finalist. -/
def axeFive : AxeState :=
  { stage := "finals",
    pairs := [mkAxePair 1 1 2 (some 30) none, mkAxePair 2 3 4 (some 28) none,
              mkAxePair 3 5 6 (some 27) none, mkAxePair 4 7 8 (some 25) none,
              mkAxePair 5 9 10 (some 20) none],
    finalists := [mkAxePair 1 1 2 (some 30) (some 20),
                  mkAxePair 2 3 4 (some 28) (some 22),
                  mkAxePair 3 5 6 (some 27) (some 18),
                  mkAxePair 4 7 8 (some 25) none] }

/-- A college lowest-wins event. -/
def cfgCollege : EventCfg :=
  { name := "Underhand Speed", event_type := "college",
    scoring_type := "time", scoring_order := "lowest_wins" }

/-- Four completed results with metrics [10, 12, 12, 15] — rows 2 and 3
tie at 12. -/
def stTie : ScoringState :=
  { results := [
      { competitor_id := 1, result_value := some 10, status := "completed" },
      { competitor_id := 2, result_value := some 12, status := "completed" },
      { competitor_id := 3, result_value := some 12, status := "completed" },
      { competitor_id := 4, result_value := some 15, status := "completed" }],
    collegeComps := [{ id := 1 }, { id := 2 }, { id := 3 }, { id := 4 }] }

/-- Five saw_hand entrants whose placement never needs the fallback
pass: only Carl shares gear with Alice, and the snake walk always finds
a conflict-free heat. -/
def sawComps5 : List GearComp :=
  [gAlice, gNamesAlice 2 "Carl", { id := 3, name := "Zed" },
   { id := 4, name := "Zoe" }, { id := 5, name := "Max" }]

-- ---------------------------------------------------------------------------
-- Named pieces of _calculate_positions (routes/scoring.py), for the
-- idempotence analysis: the source's local variables `results` (ranked),
-- the index → position assignment, and the written-back rows, as
-- functions of the undone stored rows.
-- ---------------------------------------------------------------------------

/-- A default row for index-based reads of the stored results list. -/
def dummyRow : ResultRow := { competitor_id := 0 }

/-- The ranked completed rows of `_calculate_positions` (`results` after
the sort), as a function of the undone stored rows. -/
def rankedOf (cfg : EventCfg) (rs1 : List ResultRow) : List (Nat × ResultRow) :=
  sortStable (resultLt cfg) (completedEnum rs1)

/-- The stored-index → position assignment `_calculate_positions` builds
with `enumerate(results, start=1)`. -/
def assignOf (cfg : EventCfg) (rs1 : List ResultRow) : List (Nat × Nat) :=
  (rankedOf cfg rs1).enum.map (fun p => (p.2.1, p.1 + 1))

/-- The stored rows after `_calculate_positions` writes positions,
points/payouts and outlier flags back. -/
def resultsOf (cfg : EventCfg) (rs1 : List ResultRow) : List ResultRow :=
  rs1.enum.map (fun p =>
    applyAssignRow cfg (outlierValues cfg (rankedOf cfg rs1))
      (assignOf cfg rs1) p.1 p.2)

/-- The net effect of one finalization pass followed by the next pass's
undo on a stored row (with its index): the position assignment, then
the clearing of the awarded amount. -/
def reassignRow (cfg : EventCfg) (values : List Val)
    (assign : List (Nat × Nat)) (p : Nat × ResultRow) : Nat × ResultRow :=
  (p.1, undoRow cfg (applyAssignRow cfg values assign p.1 p.2))

/-- The body of the college undo loop of `_calculate_positions`, acting
on one competitor row (`if not awarded: continue`, then the clamped
subtraction for the matching competitor). -/
def undoStepC (r : ResultRow) (c : CollegeComp) : CollegeComp :=
  if r.points_awarded == 0 then c
  else if c.id == r.competitor_id then
    { c with individual_points := max 0 (c.individual_points - r.points_awarded) }
  else c

/-- The body of the pro undo loop of `_calculate_positions`. -/
def undoStepP (r : ResultRow) (c : ProComp) : ProComp :=
  if r.payout_amount == 0 then c
  else if c.id == r.competitor_id then
    { c with total_earnings := max 0 (c.total_earnings - r.payout_amount) }
  else c

/-- The body of the college award loop of `_calculate_positions`. -/
def awardStepC (p : Nat × Nat × ResultRow) (c : CollegeComp) : CollegeComp :=
  if c.id == p.2.2.competitor_id then
    { c with individual_points := c.individual_points + PLACEMENT_POINTS (p.1 + 1) }
  else c

/-- The body of the pro award loop of `_calculate_positions`. -/
def awardStepP (cfg : EventCfg) (p : Nat × Nat × ResultRow) (c : ProComp) :
    ProComp :=
  if c.id == p.2.2.competitor_id then
    { c with total_earnings := c.total_earnings + cfg.get_payout_for_position (p.1 + 1) }
  else c

/-- A college event state for exercising finalization twice: two
completed rows and one pending row, competitors 1 and 2 on team 1,
competitor 3 on team 2, all starting at zero points. -/
def stC1 : ScoringState :=
  { results := [
      { competitor_id := 1, result_value := some 10, status := "completed" },
      { competitor_id := 2, result_value := some 12, status := "completed" },
      { competitor_id := 3, result_value := some 9 }],
    collegeComps := [{ id := 1, team_id := some 1 }, { id := 2, team_id := some 1 },
                     { id := 3, team_id := some 2 }],
    teams := [{ id := 1 }, { id := 2 }] }

-- ===========================================================================
-- Theorems
-- ===========================================================================

-- ---------------------------------------------------------------------------
-- Association-list lemmas
-- ---------------------------------------------------------------------------

theorem lookup_dictSet (l : List (String × α)) (k : String) (v : α) :
    (dictSet l k v).lookup k = some v := by
  unfold dictSet
  by_cases hany : (l.any (fun p => p.1 == k)) = true
  · rw [if_pos hany]
    induction l with
    | nil => simp at hany
    | cons p t ih =>
      rw [List.map_cons]
      by_cases hp : (p.1 == k) = true
      · rw [if_pos hp]
        simp [List.lookup]
      · rw [if_neg hp]
        rw [List.any_cons] at hany
        have ht : (t.any (fun p => p.1 == k)) = true := by
          cases Bool.or_eq_true_iff.mp hany with
          | inl h => exact absurd h hp
          | inr h => exact h
        have hk : (k == p.1) = false := by
          rw [beq_eq_false_iff_ne]
          exact fun e => hp (beq_iff_eq.mpr e.symm)
        simp only [List.lookup, hk]
        exact ih ht
  · rw [if_neg hany]
    induction l with
    | nil => simp [List.lookup]
    | cons p t ih =>
      rw [List.any_cons] at hany
      have hp : (p.1 == k) = false := by
        cases h : (p.1 == k) with
        | false => rfl
        | true => exact absurd (by rw [h]; simp) hany
      have ht : ¬ (t.any (fun p => p.1 == k)) = true := by
        intro h
        exact hany (by rw [h]; simp)
      have hk : (k == p.1) = false := by
        rw [beq_eq_false_iff_ne]
        rw [beq_eq_false_iff_ne] at hp
        exact fun e => hp e.symm
      rw [List.cons_append]
      simp only [List.lookup, hk]
      exact ih ht

theorem lookup_dictPop (l : List (String × α)) (k : String) :
    (dictPop l k).lookup k = none := by
  unfold dictPop
  induction l with
  | nil => rfl
  | cons p t ih =>
    by_cases hp : (p.1 == k) = true
    · have hbne : (p.1 != k) = false := by simp [bne, hp]
      rw [List.filter_cons, hbne]
      simp only [Bool.false_eq_true, if_false]
      exact ih
    · have hbne : (p.1 != k) = true := by
        simp only [bne]
        simp only [Bool.not_eq_true']
        cases h : (p.1 == k) with
        | false => rfl
        | true => exact absurd h hp
      rw [List.filter_cons, hbne]
      simp only [if_true]
      have hk : (k == p.1) = false := by
        rw [beq_eq_false_iff_ne]
        exact fun e => hp (beq_iff_eq.mpr e.symm)
      simp only [List.lookup, hk]
      exact ih

-- ---------------------------------------------------------------------------
-- C10 — TTL cache
-- ---------------------------------------------------------------------------

/-- C10 (counterexample): the claim says a value is served only when the
set occurred strictly less than the effective TTL ago, but at exactly
the TTL boundary (set at time 0 with ttl 5, read at time 5) the source's
strict comparison `item['expires_at'] < now` still serves the value. -/
theorem c10_counterexample :
    (report_cache.get 5 (report_cache.set 0 ([] : ReportCache Nat) "k" 42 5)
        "k").1 = some 42 ∧
      ¬ ((5 : ℚ) - 0 < ((5 : ℤ) : ℚ)) := by
  constructor
  · norm_num [report_cache.get, report_cache.set, dictSet, List.lookup]
  · norm_num

/-- C10 (amended): `set` clamps the effective TTL to at least one
second; `get` serves the value while at most the effective TTL has
elapsed since the `set`; once strictly more has elapsed, `get` returns
`None` and the entry is removed from the cache. -/
theorem c10_cache_ttl (α : Type) (now setTime : ℚ) (cache : ReportCache α)
    (key : String) (value : α) (ttl : ℤ) :
    (1 : ℤ) ≤ max 1 ttl ∧
    (now - setTime ≤ ((max 1 ttl : ℤ) : ℚ) →
      (report_cache.get now (report_cache.set setTime cache key value ttl)
          key).1 = some value) ∧
    (((max 1 ttl : ℤ) : ℚ) < now - setTime →
      (report_cache.get now (report_cache.set setTime cache key value ttl)
            key).1 = none ∧
        ((report_cache.get now (report_cache.set setTime cache key value ttl)
            key).2.lookup key = none)) := by
  have hset :
      (report_cache.set setTime cache key value ttl).lookup key =
        some { value := value, expires_at := setTime + ((max 1 ttl : ℤ) : ℚ) } := by
    unfold report_cache.set
    exact lookup_dictSet _ _ _
  refine ⟨le_max_left 1 ttl, ?_, ?_⟩
  · intro h
    have hc : ¬ (setTime + ((max 1 ttl : ℤ) : ℚ) < now) := by linarith
    simp only [report_cache.get, hset, hc, if_false]
  · intro h
    have hc : setTime + ((max 1 ttl : ℤ) : ℚ) < now := by linarith
    simp only [report_cache.get, hset, hc, if_true]
    exact ⟨trivial, lookup_dictPop _ _⟩

/-- C10 (witness): the amended theorem applied at a concrete input — a
value set at time 0 with a clamped-up ttl of 0 (effective 1 second) is
still served at time 1 and gone at time 2. -/
theorem c10_cache_ttl_witness :
    (report_cache.get 1 (report_cache.set 0 ([] : ReportCache Nat) "k" 7 0)
        "k").1 = some 7 ∧
    (report_cache.get 2 (report_cache.set 0 ([] : ReportCache Nat) "k" 7 0)
        "k").1 = none :=
  ⟨(c10_cache_ttl Nat 1 0 [] "k" 7 0).2.1 (by norm_num),
   ((c10_cache_ttl Nat 2 0 [] "k" 7 0).2.2 (by norm_num)).1⟩

-- ---------------------------------------------------------------------------
-- C3 — dual-run values and best_run
-- ---------------------------------------------------------------------------

/-- C3 (counterexample): on a dual-run hits event (highest wins) with
run values 5 and 3, the claim demands `best_run = max = 5`, but saving
the run-2 value through the scoring route leaves
`best_run = min(5, 3) = 3` — `calculate_best_run` takes the minimum for
every scoring type. -/
theorem c3_counterexample :
    ((save_heat_results_submission hitsDualCfg (fun _ => "p")
          { heats := [hitsDualHeat], scoring := { results := [hitsDualRow] } }
          10 hitsDualForm).1.scoring.results.map
        (fun r => (r.run1_value, r.run2_value, r.best_run))) =
        [(some 5, some 3, some 3)] ∧
      (3 : Val) ≠ max 5 3 := by
  constructor
  · rfl
  · norm_num

/-- `calculate_best_run` never touches the stored run values. -/
theorem calculate_best_run_preserves_runs (r : ResultRow) :
    r.calculate_best_run.run1_value = r.run1_value ∧
      r.calculate_best_run.run2_value = r.run2_value := by
  unfold ResultRow.calculate_best_run
  cases hr1 : r.run1_value <;> cases hr2 : r.run2_value <;> simp [hr1, hr2]

/-- C3 (amended): for a dual-run event, saving a heat result writes the
parsed value into `run1_value` when the heat's `run_number` is 1 and
into `run2_value` otherwise; and whenever both runs are present,
`best_run` (and `result_value`) equal `min(run1_value, run2_value)` for
every scoring type — time, score, distance and hits alike. -/
theorem c3_best_run (cfg : EventCfg) (run_number : Nat) (v : Val)
    (r : ResultRow) (hdual : cfg.requires_dual_runs = true) :
    (run_number = 1 →
        (applyResultValue cfg run_number v r).run1_value = some v) ∧
    (run_number ≠ 1 →
        (applyResultValue cfg run_number v r).run2_value = some v) ∧
    (∀ (row : ResultRow) (v1 v2 : Val),
      row.run1_value = some v1 → row.run2_value = some v2 →
        row.calculate_best_run.best_run = some (min v1 v2) ∧
        row.calculate_best_run.result_value = some (min v1 v2)) := by
  refine ⟨?_, ?_, ?_⟩
  · intro hrun
    subst hrun
    simp only [applyResultValue, hdual, if_true]
    have := calculate_best_run_preserves_runs
      ({ r with run1_value := some v })
    simpa using this.1
  · intro hrun
    have hrn : (run_number == 1) = false := by
      simp only [beq_eq_false_iff_ne, ne_eq]
      exact hrun
    simp only [applyResultValue, hdual, if_true, hrn, Bool.false_eq_true,
      if_false]
    have := calculate_best_run_preserves_runs
      ({ r with run2_value := some v })
    simpa using this.2
  · intro row v1 v2 h1 h2
    simp [ResultRow.calculate_best_run, h1, h2]

/-- C3 (witness): the amended theorem at the concrete hits event — the
run-2 slot is written, and `best_run` of a row with runs 5 and 3 is
`min 5 3 = 3`. -/
theorem c3_best_run_witness :
    (applyResultValue hitsDualCfg 2 3 hitsDualRow).run2_value = some 3 ∧
      ({ hitsDualRow with run2_value := some 3 } :
          ResultRow).calculate_best_run.best_run = some (min 5 3) :=
  ⟨(c3_best_run hitsDualCfg 2 3 hitsDualRow rfl).2.1 (by decide),
   ((c3_best_run hitsDualCfg 2 3 hitsDualRow rfl).2.2
      { hitsDualRow with run2_value := some 3 } 5 3 rfl rfl).1⟩

-- ---------------------------------------------------------------------------
-- C5 — Birling match advancement
-- ---------------------------------------------------------------------------

/-- C5 (code bug): in a fresh 4-competitor bracket, recording W1_1 with
winner 1 stores winner and loser on W1_1 but leaves both competitor
slots of the next winners match W2_1 empty — `_advance_winner`,
`_drop_to_losers` and `_advance_loser_winner` are unimplemented `pass`
stubs, although their docstrings, the match-handling branches that call
them and the spec all promise that the winner is placed into their next
match. -/
theorem c5_advancement_unimplemented :
    ((generate_bracket birlingComps4 none).bind
        (fun b => record_match_result b "W1_1" 1)).map (fun b =>
      ((find_match b "W1_1").map (fun m => (m.winner, m.loser)),
       (find_match b "W2_1").map (fun m => (m.competitor1, m.competitor2)))) =
      some (some (some 1, some 4), some (none, none)) := by
  decide

-- ---------------------------------------------------------------------------
-- C4 — heat count and snake-draft sizes
-- ---------------------------------------------------------------------------

theorem tryPlaceConflictFree_length (ev : EventCfg) (unit : List GearComp)
    (mx H : Nat) :
    ∀ (fuel : Nat) (heats : List (List GearComp)) (idx dir : Int)
      (h' : List (List GearComp)),
      (tryPlaceConflictFree ev unit mx H fuel heats idx dir).1 = some h' →
        h'.length = heats.length := by
  intro fuel
  induction fuel with
  | zero =>
    intro heats idx dir h' h
    simp [tryPlaceConflictFree] at h
  | succ n ih =>
    intro heats idx dir h' h
    rw [tryPlaceConflictFree] at h
    split at h
    · simp only [Option.some.injEq] at h
      subst h
      exact List.length_set heats _ _
    · rcases hadv : advance_snake_index idx dir H with ⟨i2, d2⟩
      rw [hadv] at h
      exact ih heats i2 d2 h' h

theorem tryPlaceAny_length (unit : List GearComp) (mx H : Nat) :
    ∀ (fuel : Nat) (heats : List (List GearComp)) (idx dir : Int)
      (h' : List (List GearComp)),
      (tryPlaceAny unit mx H fuel heats idx dir).1 = some h' →
        h'.length = heats.length := by
  intro fuel
  induction fuel with
  | zero =>
    intro heats idx dir h' h
    simp [tryPlaceAny] at h
  | succ n ih =>
    intro heats idx dir h' h
    rw [tryPlaceAny] at h
    split at h
    · simp only [Option.some.injEq] at h
      subst h
      exact List.length_set heats _ _
    · rcases hadv : advance_snake_index idx dir H with ⟨i2, d2⟩
      rw [hadv] at h
      exact ih heats i2 d2 h' h

theorem placeUnit_length (ev : EventCfg) (mx H : Nat)
    (acc : List (List GearComp) × Int × Int × Bool) (unit : List GearComp) :
    (placeUnit ev mx H acc unit).1.length = acc.1.length := by
  rcases acc with ⟨heats, idx, dir, fb⟩
  unfold placeUnit
  dsimp only
  rcases h1 : tryPlaceConflictFree ev unit mx H H heats idx dir
    with ⟨res, i1, d1⟩
  dsimp only
  cases res with
  | some h' =>
    exact tryPlaceConflictFree_length ev unit mx H H heats idx dir h'
      (by rw [h1])
  | none =>
    rcases h2 : tryPlaceAny unit mx H H heats i1 d1 with ⟨res2, i2, d2⟩
    dsimp only
    cases res2 with
    | some h'' =>
      exact tryPlaceAny_length unit mx H H heats i1 d1 h'' (by rw [h2])
    | none => rfl

theorem foldl_placeUnit_length (ev : EventCfg) (mx H : Nat)
    (units : List (List GearComp)) :
    ∀ acc : List (List GearComp) × Int × Int × Bool,
      (units.foldl (placeUnit ev mx H) acc).1.length = acc.1.length := by
  induction units with
  | nil => intro acc; rfl
  | cons u t ih =>
    intro acc
    rw [List.foldl_cons]
    rw [ih (placeUnit ev mx H acc u)]
    exact placeUnit_length ev mx H acc u

/-- `_generate_standard_heats` always returns exactly `num_heats`
heats. -/
theorem generate_standard_heats_length (competitors : List GearComp)
    (num_heats max_per_heat : Nat) (ev : EventCfg) :
    (generate_standard_heats competitors num_heats max_per_heat ev).length =
      num_heats := by
  unfold generate_standard_heats generate_standard_heats_fb
  dsimp only
  rcases h : (build_partner_units competitors ev).foldl
      (placeUnit ev max_per_heat num_heats)
      (List.replicate num_heats [], 0, 1, false) with ⟨heats, idx, dir, fb⟩
  dsimp only
  have := foldl_placeUnit_length ev max_per_heat num_heats
    (build_partner_units competitors ev)
    (List.replicate num_heats [], 0, 1, false)
  rw [h] at this
  simpa using this

/-- The generated rows with `run_number = 1` are exactly one per
distributed heat list. -/
theorem makeGeneratedHeats_run1_count (ev : EventCfg)
    (heats : List (List GearComp)) (stand_numbers : List Nat) :
    ((makeGeneratedHeats ev heats stand_numbers).filter
        (fun h => h.run_number == 1)).length = heats.length := by
  unfold makeGeneratedHeats
  rw [List.filter_append]
  have h1 : ∀ l : List (Nat × List GearComp),
      (l.map (fun p =>
        ({ heat_number := p.1 + 1, run_number := 1,
           competitors := p.2.map (fun c => c.id),
           stand_assignments := (p.2.map (fun c => c.id)).zip stand_numbers
           : HeatRow }))).filter (fun h => h.run_number == 1) =
      l.map (fun p =>
        ({ heat_number := p.1 + 1, run_number := 1,
           competitors := p.2.map (fun c => c.id),
           stand_assignments := (p.2.map (fun c => c.id)).zip stand_numbers
           : HeatRow })) := by
    intro l
    apply List.filter_eq_self.mpr
    intro a ha
    rcases List.mem_map.mp ha with ⟨p, _, hp⟩
    rw [← hp]
    rfl
  rw [h1]
  have h2 : ∀ l : List HeatRow,
      (∀ a ∈ l, a.run_number = 2) →
        l.filter (fun h => h.run_number == 1) = [] := by
    intro l hl
    apply List.filter_eq_nil_iff.mpr
    intro a ha
    rw [hl a ha]
    decide
  rw [h2]
  · simp
  · intro a ha
    split at ha
    · rcases List.mem_map.mp ha with ⟨p, _, hp⟩
      rw [← hp]
    · simp at ha

/-- C4 (counterexample): 17 entrants into a four-stand type produce
heats of sizes [3, 3, 3, 4, 4] — the snake draft balances heats — not
the claimed [4, 4, 4, 4, 1]. -/
theorem c4_counterexample :
    ((generate_event_heats evHot comps17).1.map
        (fun h => h.competitors.length)) = [3, 3, 3, 4, 4] ∧
      [(3 : Nat), 3, 3, 4, 4] ≠ [4, 4, 4, 4, 1] := by
  decide

/-- C4 (amended): heat generation for a non-partnered event (outside
the saw_hand specialisation) creates exactly ⌈N / max_per_heat⌉ run-1
heats; for 17 entrants with capacity 4 it produces 5 heats whose sizes
are [3, 3, 3, 4, 4], with competitor order within heats following the
snake sequence 1,2,…,H,H,H−1,…,1,1,…. -/
theorem c4_heat_count (ev : EventCfg) (comps : List GearComp)
    (hst : ev.stand_type ≠ "saw_hand") :
    ((generate_event_heats ev comps).1.filter
        (fun h => h.run_number == 1)).length =
      (comps.length + maxPerHeatFor ev - 1) / maxPerHeatFor ev ∧
    (generate_event_heats ev comps).2 =
      (comps.length + maxPerHeatFor ev - 1) / maxPerHeatFor ev ∧
    ((generate_event_heats evHot comps17).1.map
        (fun h => (h.heat_number, h.competitors))) =
      [(1, [1, 10, 11]), (2, [2, 9, 12]), (3, [3, 8, 13]),
       (4, [4, 7, 14, 17]), (5, [5, 6, 15, 16])] := by
  have hbeq : (ev.stand_type == "saw_hand") = false := by
    rw [beq_eq_false_iff_ne]
    exact hst
  refine ⟨?_, ?_, by decide⟩
  · show ((makeGeneratedHeats ev
        (if ev.stand_type == "saw_hand" then
          generate_saw_heats comps _ (maxPerHeatFor ev) ev
        else generate_standard_heats comps _ (maxPerHeatFor ev) ev) _).filter
          (fun h => h.run_number == 1)).length = _
    rw [hbeq]
    simp only [Bool.false_eq_true, if_false]
    rw [makeGeneratedHeats_run1_count]
    exact generate_standard_heats_length _ _ _ _
  · rfl

/-- C4 (witness): the amended theorem at the 17-entrant hot_saw event
(capacity 4): ⌈17 / 4⌉ = 5 run-1 heats. -/
theorem c4_heat_count_witness :
    ((generate_event_heats evHot comps17).1.filter
        (fun h => h.run_number == 1)).length = 5 := by
  have h := (c4_heat_count evHot comps17 (by decide)).1
  rw [h]
  decide

-- ---------------------------------------------------------------------------
-- C9 — gear-sharing counterexample (fallback path)
-- ---------------------------------------------------------------------------

/-- C9 (counterexample): Alice (id 1) and Bob (id 7) share crosscut
gear for a saw_hand event, yet heat generation for the seven entrants
places both into heat 1 of 2 (Bob's first pass finds heat 1 conflicting
and heat 2 full, so the fallback pass drops him next to Alice despite
the conflict and although the event has two heats). -/
theorem c9_counterexample :
    ((generate_event_heats evSaw sawComps7).1.map (fun h => h.competitors)) =
        [[1, 6, 7], [2, 3, 4, 5]] ∧
      (generate_event_heats evSaw sawComps7).1.length = 2 ∧
      competitors_share_gear_for_event gAlice (gNamesAlice 7 "Bob") evSaw =
        true := by
  decide

-- ---------------------------------------------------------------------------
-- C7 — optimistic concurrency on heat saves
-- ---------------------------------------------------------------------------

theorem find?_pointwise_congr {α : Type} (p q : α → Bool) (l : List α)
    (h : ∀ x, p x = q x) : l.find? p = l.find? q := by
  induction l with
  | nil => rfl
  | cons a t ih =>
    rw [List.find?_cons, List.find?_cons, h a]
    cases q a <;> simp [ih]

/-- C7: a heat-results submission whose `heat_version` differs from the
heat's current version is rejected with 409 before anything runs — the
returned state is the input state, so every result row, the heat and
all competitor totals are untouched; and a successful save (`ok`) of a
not-yet-completed heat leaves the heat completed with its version
bumped to `v + 1`. -/
theorem c7_optimistic_concurrency (cfg : EventCfg) (name : Nat → String)
    (s : EventState) (heat_id : Nat) (form : SaveForm) (heat : HeatRow)
    (hfind : s.heats.find? (fun h => h.id == heat_id) = some heat) :
    (form.heat_version ≠ some heat.version_id →
      save_heat_results_submission cfg name s heat_id form =
        (s, { ok := false, category := "error", status_code := 409 })) ∧
    (∀ s' out, save_heat_results_submission cfg name s heat_id form = (s', out) →
      out.ok = true → heat.status ≠ "completed" →
        s'.heats.find? (fun h => h.id == heat_id) =
          some { heat with status := "completed",
                           version_id := heat.version_id + 1 }) := by
  constructor
  · intro hne
    have hbne : (form.heat_version != some heat.version_id) = true := by
      simp only [bne_iff_ne, ne_eq]
      exact hne
    unfold save_heat_results_submission
    rw [hfind]
    dsimp only
    rw [if_pos hbne]
  · intro s' out hsave hok hpend
    have hid : (heat.id == heat_id) = true := by
      have := List.find?_some hfind
      simpa using this
    unfold save_heat_results_submission at hsave
    rw [hfind] at hsave
    dsimp only at hsave
    by_cases hv : (form.heat_version != some heat.version_id) = true
    · rw [if_pos hv] at hsave
      injection hsave with h1 h2
      rw [← h2] at hok
      simp at hok
    · rw [if_neg hv] at hsave
      rcases hfold : heat.competitors.foldl
          (processEntry cfg name heat.run_number form)
          (s.scoring.results, 0, 0) with ⟨results1, changes, invalid⟩
      rw [hfold] at hsave
      dsimp only at hsave
      by_cases hch : (changes == 0) = true
      · rw [if_pos hch] at hsave
        injection hsave with h1 h2
        rw [← h2] at hok
        simp at hok
      · rw [if_neg hch] at hsave
        have hheats : s'.heats = s.heats.map (fun h =>
            if h.id == heat_id then markHeatCompleted h else h) := by
          have := congrArg Prod.fst hsave
          dsimp only at this
          rw [← this]
        rw [hheats]
        rw [List.find?_map]
        have hcomp : (List.find?
            ((fun h : HeatRow => h.id == heat_id) ∘
              (fun h => if h.id == heat_id then markHeatCompleted h else h))
            s.heats) = some heat := by
          rw [← hfind]
          apply find?_pointwise_congr
          intro x
          by_cases hx : (x.id == heat_id) = true
          · simp only [Function.comp, hx, if_pos, markHeatCompleted]
          · simp only [Bool.not_eq_true] at hx
            simp only [Function.comp, hx, Bool.false_eq_true, if_false]
        rw [hcomp]
        have hstat : (heat.status == "completed") = false := by
          rw [beq_eq_false_iff_ne]
          exact hpend
        simp only [Option.map_some', markHeatCompleted, hid, if_pos, hstat,
          Bool.false_eq_true, if_false]

/-- C7 (witness): the theorem at a concrete pending heat — the stale
save (posted version 0 against current 1) returns 409 with the state
unchanged, and the good save (posted version 1) bumps the version
to 2. -/
theorem c7_optimistic_concurrency_witness :
    save_heat_results_submission hitsDualCfg (fun _ => "p")
        { heats := [hitsDualHeat], scoring := { results := [hitsDualRow] } }
        10 { hitsDualForm with heat_version := some 0 } =
      ({ heats := [hitsDualHeat], scoring := { results := [hitsDualRow] } },
       { ok := false, category := "error", status_code := 409 }) ∧
    ((save_heat_results_submission hitsDualCfg (fun _ => "p")
        { heats := [hitsDualHeat], scoring := { results := [hitsDualRow] } }
        10 hitsDualForm).1.heats.find? (fun h => h.id == 10) =
      some { hitsDualHeat with status := "completed", version_id := 2 }) := by
  constructor
  · exact (c7_optimistic_concurrency hitsDualCfg (fun _ => "p")
      { heats := [hitsDualHeat], scoring := { results := [hitsDualRow] } }
      10 { hitsDualForm with heat_version := some 0 } hitsDualHeat
      (by decide)).1 (by decide)
  · exact (c7_optimistic_concurrency hitsDualCfg (fun _ => "p")
      { heats := [hitsDualHeat], scoring := { results := [hitsDualRow] } }
      10 hitsDualForm hitsDualHeat (by decide)).2
      _ _ rfl (by decide) (by decide)

-- ---------------------------------------------------------------------------
-- C8 — stand assignments
-- ---------------------------------------------------------------------------

theorem mem_of_lookup_eq_some {α β : Type} [BEq α] [LawfulBEq α]
    {l : List (α × β)} {k : α} {v : β} (h : l.lookup k = some v) :
    (k, v) ∈ l := by
  induction l with
  | nil => simp [List.lookup] at h
  | cons p t ih =>
    rcases p with ⟨a, b⟩
    rw [List.lookup] at h
    by_cases hk : (k == a) = true
    · rw [hk] at h
      simp only [Option.some.injEq] at h
      subst h
      have : k = a := eq_of_beq hk
      subst this
      exact List.mem_cons_self _ _
    · rw [Bool.not_eq_true] at hk
      rw [hk] at h
      exact List.mem_cons_of_mem _ (ih h)

/-- Every configured `specific_stands` list is duplicate-free and
non-empty. -/
theorem stand_configs_wf : ∀ p ∈ STAND_CONFIGS,
    (p.2.specific_stands.getD []).Nodup ∧ p.2.specific_stands ≠ some [] := by
  decide

theorem map_snd_zip_sublist {α β : Type} :
    ∀ (l1 : List α) (l2 : List β), ((l1.zip l2).map Prod.snd).Sublist l2 := by
  intro l1
  induction l1 with
  | nil => intro l2; simp
  | cons a t ih =>
    intro l2
    cases l2 with
    | nil => simp
    | cons b t2 =>
      rw [List.zip_cons_cons, List.map_cons]
      exact List.Sublist.cons₂ b (ih t2)

/-- The stand numbers the generator draws are duplicate-free and lie in
the claim's allowed stand set. -/
theorem stand_numbers_nodup_subset (ev : EventCfg) (sc : StandConfig)
    (hsc : standConfigFor ev = some sc) :
    (stand_numbers_for_event ev (maxPerHeatFor ev) (standConfigFor ev)).Nodup ∧
      ∀ st ∈ stand_numbers_for_event ev (maxPerHeatFor ev) (standConfigFor ev),
        st ∈ claimAllowedStands ev sc := by
  have hmax : maxPerHeatFor ev = sc.total := by
    unfold maxPerHeatFor
    rw [hsc]
  unfold stand_numbers_for_event claimAllowedStands
  rw [hsc]
  dsimp only
  by_cases hg : (ev.event_type == "college" &&
      normalizeName ev.name == normalizeName "Stock Saw") = true
  · rw [if_pos hg, if_pos hg]
    constructor
    · exact List.Nodup.sublist (List.take_sublist _ _) (by decide)
    · intro st hst
      exact (List.take_sublist _ _).subset hst
  · rw [if_neg hg, if_neg hg]
    have hwf := stand_configs_wf (ev.stand_type, sc)
      (mem_of_lookup_eq_some hsc)
    cases hspec : sc.specific_stands with
    | some specific =>
      dsimp only
      rw [show (ev.stand_type, sc).2.specific_stands = some specific
        from hspec] at hwf
      have hne : specific.isEmpty = false := by
        cases specific with
        | nil => exact absurd rfl hwf.2
        | cons a t => rfl
      rw [hne]
      simp only [Bool.false_eq_true, if_false]
      constructor
      · exact List.Nodup.sublist (List.take_sublist _ _) (by simpa using hwf.1)
      · intro st hst
        exact (List.take_sublist _ _).subset hst
    | none =>
      dsimp only
      rw [hmax]
      exact ⟨List.nodup_range' 1 sc.total, fun st hst => hst⟩

/-- C8: every heat row the generator constructs carries pairwise
distinct stand numbers drawn from the stand set the event's stand_type
defines in `STAND_CONFIGS`, with the college Stock Saw special case
using stands {7, 8}.  The size hypothesis marks the domain where the
positional indexing of the source cannot raise `IndexError`. -/
theorem c8_stand_assignments (ev : EventCfg) (heats : List (List GearComp))
    (sc : StandConfig) (hsc : standConfigFor ev = some sc)
    (_hsize : ∀ hl ∈ heats, hl.length ≤
      (stand_numbers_for_event ev (maxPerHeatFor ev) (standConfigFor ev)).length) :
    ∀ gh ∈ makeGeneratedHeats ev heats
        (stand_numbers_for_event ev (maxPerHeatFor ev) (standConfigFor ev)),
      (gh.stand_assignments.map Prod.snd).Nodup ∧
        ∀ st ∈ gh.stand_assignments.map Prod.snd,
          st ∈ claimAllowedStands ev sc := by
  intro gh hm
  obtain ⟨hnodup, hsub⟩ := stand_numbers_nodup_subset ev sc hsc
  set sn := stand_numbers_for_event ev (maxPerHeatFor ev) (standConfigFor ev)
    with hsn
  unfold makeGeneratedHeats at hm
  rw [List.mem_append] at hm
  cases hm with
  | inl h1 =>
    rcases List.mem_map.mp h1 with ⟨p, _, hp⟩
    have hassign : gh.stand_assignments = (p.2.map (fun c => c.id)).zip sn := by
      rw [← hp]
    rw [hassign]
    have hsl := map_snd_zip_sublist (p.2.map (fun c => c.id)) sn
    exact ⟨List.Nodup.sublist hsl hnodup, fun st hst => hsub st (hsl.subset hst)⟩
  | inr h2 =>
    split at h2
    · rcases List.mem_map.mp h2 with ⟨p, _, hp⟩
      have hassign : gh.stand_assignments =
          (p.2.map (fun c => c.id)).zip sn.reverse := by
        rw [← hp]
      rw [hassign]
      have hsl := map_snd_zip_sublist (p.2.map (fun c => c.id)) sn.reverse
      refine ⟨List.Nodup.sublist hsl (by simpa using hnodup), ?_⟩
      intro st hst
      exact hsub st (List.mem_reverse.mp (hsl.subset hst))
    · simp at h2

/-- C8 (witness): a college Stock Saw heat of two competitors receives
the distinct stands 7 and 8. -/
theorem c8_stand_assignments_witness :
    ((({ heat_number := 1, run_number := 1, competitors := [1, 2],
         stand_assignments := [(1, 7), (2, 8)] } :
        HeatRow).stand_assignments.map Prod.snd).Nodup) ∧
      7 ∈ claimAllowedStands evStockSaw
        { total := 2, specific_stands := some [1, 2] } :=
  ⟨(c8_stand_assignments evStockSaw [[gAlice, { id := 2, name := "Bea" }]]
      { total := 2, specific_stands := some [1, 2] } (by decide) (by decide)
      { heat_number := 1, run_number := 1, competitors := [1, 2],
        stand_assignments := [(1, 7), (2, 8)] } (by decide)).1,
   (c8_stand_assignments evStockSaw [[gAlice, { id := 2, name := "Bea" }]]
      { total := 2, specific_stands := some [1, 2] } (by decide) (by decide)
      { heat_number := 1, run_number := 1, competitors := [1, 2],
        stand_assignments := [(1, 7), (2, 8)] } (by decide)).2 7 (by decide)⟩

-- ---------------------------------------------------------------------------
-- Stable-sort lemmas
-- ---------------------------------------------------------------------------

theorem insertStable_perm {α : Type} (lt : α → α → Bool) (x : α)
    (l : List α) : (insertStable lt x l).Perm (x :: l) := by
  induction l with
  | nil => rfl
  | cons y ys ih =>
    rw [insertStable]
    split
    · rfl
    · exact (ih.cons y).trans (List.Perm.swap x y ys)

theorem sortStable_aux_perm {α : Type} (lt : α → α → Bool) (l : List α) :
    ∀ acc, (l.foldl (fun acc x => insertStable lt x acc) acc).Perm (acc ++ l) := by
  induction l with
  | nil => intro acc; simp
  | cons x t ih =>
    intro acc
    rw [List.foldl_cons]
    refine (ih (insertStable lt x acc)).trans ?_
    refine (List.Perm.append_right t (insertStable_perm lt x acc)).trans ?_
    simpa using List.perm_middle.symm

theorem sortStable_perm {α : Type} (lt : α → α → Bool) (l : List α) :
    (sortStable lt l).Perm l := by
  simpa using sortStable_aux_perm lt l []

theorem insertStable_pairwise {α : Type} (lt : α → α → Bool)
    (hasym : ∀ a b, lt a b = true → lt b a = false)
    (hnt : ∀ a b c, lt a b = false → lt b c = false → lt a c = false)
    (x : α) (l : List α) (hl : l.Pairwise (fun a b => lt b a = false)) :
    (insertStable lt x l).Pairwise (fun a b => lt b a = false) := by
  induction l with
  | nil => simp [insertStable]
  | cons y ys ih =>
    rw [insertStable]
    rcases List.pairwise_cons.mp hl with ⟨hy, hys⟩
    split
    case isTrue h =>
      refine List.pairwise_cons.mpr ⟨?_, hl⟩
      intro z hz
      rcases List.mem_cons.mp hz with rfl | hz'
      · exact hasym x z h
      · exact hnt z y x (hy z hz') (hasym x y h)
    case isFalse h =>
      refine List.pairwise_cons.mpr ⟨?_, ih hys⟩
      intro z hz
      have hz2 := (insertStable_perm lt x ys).mem_iff.mp hz
      rcases List.mem_cons.mp hz2 with rfl | hz'
      · exact Bool.not_eq_true _ ▸ h
      · exact hy z hz'

theorem sortStable_pairwise {α : Type} (lt : α → α → Bool)
    (hasym : ∀ a b, lt a b = true → lt b a = false)
    (hnt : ∀ a b c, lt a b = false → lt b c = false → lt a c = false)
    (l : List α) :
    (sortStable lt l).Pairwise (fun a b => lt b a = false) := by
  suffices h : ∀ acc, acc.Pairwise (fun a b => lt b a = false) →
      (l.foldl (fun acc x => insertStable lt x acc) acc).Pairwise
        (fun a b => lt b a = false) by
    exact h [] List.Pairwise.nil
  induction l with
  | nil => intro acc hacc; exact hacc
  | cons x t ih =>
    intro acc hacc
    rw [List.foldl_cons]
    exact ih (insertStable lt x acc) (insertStable_pairwise lt hasym hnt x acc hacc)

theorem ascLt_asym : ∀ a b, ascLt a b = true → ascLt b a = false := by
  intro a b h
  cases a <;> cases b <;> simp_all [ascLt]; linarith

theorem ascLt_negtrans :
    ∀ a b c, ascLt a b = false → ascLt b c = false → ascLt a c = false := by
  intro a b c h1 h2
  cases a <;> cases b <;> cases c <;> simp_all [ascLt]; linarith

theorem descLt_asym : ∀ a b, descLt a b = true → descLt b a = false := by
  intro a b h
  cases a <;> cases b <;> simp_all [descLt]; linarith

theorem descLt_negtrans :
    ∀ a b c, descLt a b = false → descLt b c = false → descLt a c = false := by
  intro a b c h1 h2
  cases a <;> cases b <;> cases c <;> simp_all [descLt]; linarith

theorem optIntDescLt_asym :
    ∀ a b, optIntDescLt a b = true → optIntDescLt b a = false := by
  intro a b h
  cases a <;> cases b <;> simp_all [optIntDescLt]; omega

theorem optIntDescLt_negtrans :
    ∀ a b c, optIntDescLt a b = false → optIntDescLt b c = false →
      optIntDescLt a c = false := by
  intro a b c h1 h2
  cases a <;> cases b <;> cases c <;> simp_all [optIntDescLt]; omega

theorem resultLt_asym (cfg : EventCfg) :
    ∀ a b, resultLt cfg a b = true → resultLt cfg b a = false := by
  intro a b
  unfold resultLt
  split
  · exact ascLt_asym _ _
  · exact descLt_asym _ _

theorem resultLt_negtrans (cfg : EventCfg) :
    ∀ a b c, resultLt cfg a b = false → resultLt cfg b c = false →
      resultLt cfg a c = false := by
  intro a b c
  unfold resultLt
  split
  · exact ascLt_negtrans _ _ _
  · exact descLt_negtrans _ _ _

-- ---------------------------------------------------------------------------
-- C6 — Partnered Axe Throw finals
-- ---------------------------------------------------------------------------

/-- C6 (counterexample): recording the fourth finals score completes
the event, but `EventResult` rows are written only for the eight
finalist members — the members 9 and 10 of non-finalist pair 5 get no
row, although the claim says one row per individual in each pair,
finalists and non-finalists alike. -/
theorem c6_counterexample :
    (record_final_result axeFive 4 19).1.stage = "completed" ∧
      ((record_final_result axeFive 4 19).2.map (fun r => r.competitor_id)) =
        [3, 4, 1, 2, 7, 8, 5, 6] ∧
      ((record_final_result axeFive 4 19).2.all
        (fun r => !(r.competitor_id == 9 || r.competitor_id == 10))) = true := by
  decide

theorem posmap_final_position (l : List AxePair) :
    ((l.enum.map (fun q => { q.2 with final_position := some (q.1 + 1) })).map
        (fun p => p.final_position)) =
      (List.range l.length).map (fun j => some (j + 1)) := by
  rw [List.map_map]
  rw [show ((fun p : AxePair => p.final_position) ∘
      (fun q : Nat × AxePair => { q.2 with final_position := some (q.1 + 1) })) =
      ((fun j => some (j + 1)) ∘ Prod.fst) from rfl]
  rw [← List.map_map, List.enum_map_fst]

theorem posmap_final_score (l : List AxePair) :
    ((l.enum.map (fun q => { q.2 with final_position := some (q.1 + 1) })).map
        (fun p => p.final_score)) = l.map (fun p => p.final_score) := by
  rw [List.map_map]
  rw [show ((fun p : AxePair => p.final_score) ∘
      (fun q : Nat × AxePair => { q.2 with final_position := some (q.1 + 1) })) =
      ((fun p : AxePair => p.final_score) ∘ Prod.snd) from rfl]
  rw [← List.map_map, List.enum_map_snd]

theorem length_flatMap_pair {α β : Type} (l : List α) (f g : α → β) :
    (l.flatMap (fun x => [f x, g x])).length = 2 * l.length := by
  induction l with
  | nil => rfl
  | cons a t ih =>
    rw [List.flatMap_cons, List.length_append, ih]
    simp
    omega

/-- C6 (amended): once all four finalists have a finals score the event
transitions to `completed`, finalists are ranked 1–4 by finals score
(highest first), and one `EventResult` row per individual of each
finalist pair is written with that pair's `final_position` and
`result_value` equal to its final score; non-finalist pairs receive
positions 5, 6, … only in the computed full standings, and no
`EventResult` rows are written for them. -/
theorem c6_finals (s : AxeState) (pair_id : Nat) (hits : Int)
    (hlen : s.finalists.length = 4)
    (hall : ((s.finalists.map (fun p =>
        if p.pair_id == pair_id then { p with final_score := some hits }
        else p)).all (fun p => p.final_score.isSome)) = true) :
    ((record_final_result s pair_id hits).1.stage = "completed") ∧
    (((record_final_result s pair_id hits).1.finalists.map
        (fun p => p.final_position)) = [some 1, some 2, some 3, some 4]) ∧
    (((record_final_result s pair_id hits).1.finalists.map
        (fun p => p.final_score)).Pairwise
      (fun a b => optIntDescLt b a = false)) ∧
    ((record_final_result s pair_id hits).2.length = 8) ∧
    (∀ row ∈ (record_final_result s pair_id hits).2,
      ∃ pair ∈ (record_final_result s pair_id hits).1.finalists,
        (row.competitor_id = pair.competitor1.1 ∨
         row.competitor_id = pair.competitor2.1) ∧
        row.final_position = pair.final_position ∧
        row.result_value = pair.final_score.map (fun h => (h : Val))) := by
  have hred : record_final_result s pair_id hits =
      (let fs := s.finalists.map (fun p =>
        if p.pair_id == pair_id then { p with final_score := some hits } else p)
       let sorted0 := sortStable
         (fun a b => optIntDescLt a.final_score b.final_score) fs
       let sorted := sorted0.enum.map (fun q =>
         { q.2 with final_position := some (q.1 + 1) })
       let pairs := s.pairs.map (fun mp =>
         match sorted.find? (fun p => p.pair_id == mp.pair_id) with
         | some p => { mp with final_position := p.final_position,
                               final_score := p.final_score }
         | none => mp)
       let s' := { s with pairs := pairs, finalists := sorted,
                          final_results := sorted, stage := "completed" }
       (s', save_axe_event_results s'.finalists)) := by
    unfold record_final_result
    rw [if_pos hall]
  rw [hred]
  dsimp only
  set fs := s.finalists.map (fun p =>
    if p.pair_id == pair_id then { p with final_score := some hits } else p)
    with hfs
  set sorted0 := sortStable
    (fun a b => optIntDescLt a.final_score b.final_score) fs with hs0
  have hlen0 : sorted0.length = 4 := by
    rw [hs0, (sortStable_perm _ _).length_eq, hfs, List.length_map]
    exact hlen
  refine ⟨rfl, ?_, ?_, ?_, ?_⟩
  · rw [posmap_final_position, hlen0]
    decide
  · rw [posmap_final_score]
    apply List.pairwise_map.mpr
    exact sortStable_pairwise
      (fun a b => optIntDescLt a.final_score b.final_score)
      (fun a b h => optIntDescLt_asym a.final_score b.final_score h)
      (fun a b c h1 h2 => optIntDescLt_negtrans a.final_score b.final_score
        c.final_score h1 h2) fs
  · unfold save_axe_event_results
    rw [length_flatMap_pair, List.length_map, List.enum_length, hlen0]
  · intro row hrow
    unfold save_axe_event_results at hrow
    rcases List.mem_flatMap.mp hrow with ⟨pair, hpair, hmem⟩
    refine ⟨pair, hpair, ?_⟩
    rcases List.mem_cons.mp hmem with rfl | hmem2
    · exact ⟨Or.inl rfl, rfl, rfl⟩
    · rcases List.mem_cons.mp hmem2 with rfl | hmem3
      · exact ⟨Or.inr rfl, rfl, rfl⟩
      · simp at hmem3

/-- C6 (witness): the amended theorem at the concrete five-pair state —
the recording of the last finals score completes the stage and ranks
the finalists 1–4. -/
theorem c6_finals_witness :
    (record_final_result axeFive 4 19).1.stage = "completed" ∧
      ((record_final_result axeFive 4 19).1.finalists.map
        (fun p => p.final_position)) = [some 1, some 2, some 3, some 4] :=
  ⟨(c6_finals axeFive 4 19 (by decide) (by decide)).1,
   (c6_finals axeFive 4 19 (by decide) (by decide)).2.1⟩

-- ---------------------------------------------------------------------------
-- C2 — ranking of completed results
-- ---------------------------------------------------------------------------

/-- C2 (counterexample): finalization over metrics [10, 12, 12, 15]
(lowest wins) assigns positions [1, 2, 3, 4]: the two rows tied at 12
receive the distinct positions 2 and 3, not the claimed shared position
([1, 2, 2, 4]). -/
theorem c2_counterexample :
    ((calculate_positions cfgCollege stTie).results.map
        (fun r => (r.result_value, r.final_position))) =
      [(some 10, some 1), (some 12, some 2), (some 12, some 3),
       (some 15, some 4)] ∧
      ¬ (((calculate_positions cfgCollege stTie).results.map
          (fun r => r.final_position)) =
        [some 1, some 2, some 2, some 4]) := by
  decide

theorem lookup_enum_assign {β : Type} (f : β → Nat) :
    ∀ (l : List β) (n j : Nat) (p : β), (l.map f).Nodup →
      l.get? j = some p →
      ((l.enumFrom n).map (fun q => (f q.2, q.1 + 1))).lookup (f p) =
        some (n + j + 1) := by
  intro l
  induction l with
  | nil =>
    intro n j p _ h
    simp at h
  | cons a t ih =>
    intro n j p hnd hj
    rw [show List.enumFrom n (a :: t) = (n, a) :: List.enumFrom (n + 1) t
      from rfl]
    rw [List.map_cons]
    cases j with
    | zero =>
      have : a = p := by simpa using hj
      subst this
      simp [List.lookup]
    | succ j' =>
      have hj' : t.get? j' = some p := by simpa using hj
      have hpt : p ∈ t := List.get?_mem hj'
      rcases (by simpa using hnd :
          (∀ x ∈ t, ¬ f x = f a) ∧ (t.map f).Nodup) with ⟨hna, hnt⟩
      have hfa : (f p == f a) = false := by
        rw [beq_eq_false_iff_ne]
        exact hna p hpt
      rw [show (((n, a) : Nat × β)).1 + 1 = n + 1 from rfl]
      rw [List.lookup, hfa]
      have heq : n + (j' + 1) + 1 = (n + 1) + j' + 1 := by omega
      rw [heq]
      exact ih (n + 1) j' p hnt hj'

/-- The stored indices of the ranked rows are pairwise distinct. -/
theorem sorted_fst_nodup (cfg : EventCfg) (rs : List ResultRow) :
    ((sortStable (resultLt cfg) (completedEnum rs)).map Prod.fst).Nodup := by
  have hsub : (completedEnum rs).Sublist rs.enum := List.filter_sublist _
  have h1 : ((completedEnum rs).map Prod.fst).Nodup := by
    refine List.Nodup.sublist (hsub.map Prod.fst) ?_
    rw [List.enum_map_fst]
    exact List.nodup_range _
  exact (((sortStable_perm (resultLt cfg) (completedEnum rs)).map
    Prod.fst).nodup_iff).mpr h1

/-- A ranked row really is the stored row at its carried index, with
completed status. -/
theorem sorted_mem_get (cfg : EventCfg) (rs : List ResultRow)
    (p : Nat × ResultRow)
    (hp : p ∈ sortStable (resultLt cfg) (completedEnum rs)) :
    rs.get? p.1 = some p.2 ∧ (p.2.status == "completed") = true := by
  have h1 : p ∈ completedEnum rs :=
    (sortStable_perm (resultLt cfg) (completedEnum rs)).mem_iff.mp hp
  unfold completedEnum at h1
  have h2 := List.mem_filter.mp h1
  rcases p with ⟨i, r⟩
  exact ⟨List.mk_mem_enum_iff_get?.mp h2.1, h2.2⟩

theorem applyAssignRow_fields (cfg : EventCfg) (values : List Val)
    (assign : List (Nat × Nat)) (i : Nat) (r : ResultRow) :
    (applyAssignRow cfg values assign i r).status = r.status ∧
      (applyAssignRow cfg values assign i r).best_run = r.best_run ∧
      (applyAssignRow cfg values assign i r).result_value = r.result_value ∧
      (applyAssignRow cfg values assign i r).competitor_id =
        r.competitor_id := by
  unfold applyAssignRow
  cases assign.lookup i with
  | none => exact ⟨rfl, rfl, rfl, rfl⟩
  | some pos =>
    dsimp only
    by_cases hc : (cfg.event_type == "college") = true
    · rw [if_pos hc]
      exact ⟨rfl, rfl, rfl, rfl⟩
    · rw [if_neg hc]
      exact ⟨rfl, rfl, rfl, rfl⟩

theorem applyAssignRow_metric (cfg : EventCfg) (values : List Val)
    (assign : List (Nat × Nat)) (i : Nat) (r : ResultRow) :
    metric cfg (applyAssignRow cfg values assign i r) = metric cfg r := by
  obtain ⟨_, hbr, hrv, _⟩ := applyAssignRow_fields cfg values assign i r
  unfold metric
  split
  · exact hbr
  · exact hrv

theorem applyAssignRow_position (cfg : EventCfg) (values : List Val)
    (assign : List (Nat × Nat)) (i : Nat) (r : ResultRow) (pos : Nat)
    (h : assign.lookup i = some pos) :
    (applyAssignRow cfg values assign i r).final_position = some pos := by
  unfold applyAssignRow
  rw [h]
  dsimp only
  by_cases hc : (cfg.event_type == "college") = true
  · rw [if_pos hc]
  · rw [if_neg hc]

theorem get?_enum_map {β γ : Type} (g : Nat × β → γ) (l : List β) (i : Nat)
    (a : β) (h : l.get? i = some a) :
    (l.enum.map (fun p => g p)).get? i = some (g (i, a)) := by
  rw [List.get?_map, List.enum_get?, h]
  rfl

/-- C2 (amended): finalization sorts the completed rows by metric —
ascending for `lowest_wins`, descending otherwise — and then assigns
the strictly consecutive positions 1, 2, 3, … along the ranked order:
the row ranked j-th (0-based) receives `final_position = j + 1`, so
rows whose metrics compare equal still receive distinct positions
(stable order breaks the tie). -/
theorem c2_ranking (cfg : EventCfg) (s : ScoringState)
    (hne : completedEnum (s.results.map (undoRow cfg)) ≠ []) :
    (∀ p q, cfg.scoring_order = "lowest_wins" →
      resultLt cfg p q = ascLt (metric cfg p.2) (metric cfg q.2)) ∧
    (∀ p q, cfg.scoring_order ≠ "lowest_wins" →
      resultLt cfg p q = descLt (metric cfg p.2) (metric cfg q.2)) ∧
    ((sortStable (resultLt cfg)
        (completedEnum (s.results.map (undoRow cfg)))).Perm
      (completedEnum (s.results.map (undoRow cfg)))) ∧
    ((sortStable (resultLt cfg)
        (completedEnum (s.results.map (undoRow cfg)))).Pairwise
      (fun p q => resultLt cfg q p = false)) ∧
    (∀ j p, (sortStable (resultLt cfg)
        (completedEnum (s.results.map (undoRow cfg)))).get? j = some p →
      ∃ r', (calculate_positions cfg s).results.get? p.1 = some r' ∧
        r'.final_position = some (j + 1) ∧
        r'.status = p.2.status ∧
        metric cfg r' = metric cfg p.2) := by
  refine ⟨?_, ?_, sortStable_perm _ _,
    sortStable_pairwise _ (resultLt_asym cfg) (resultLt_negtrans cfg) _, ?_⟩
  · intro p q h
    unfold resultLt
    rw [if_pos (by rw [h]; exact beq_self_eq_true _)]
  · intro p q h
    unfold resultLt
    rw [if_neg (by simpa [beq_iff_eq] using h)]
  · intro j p hj
    set rs1 := s.results.map (undoRow cfg) with hrs1
    set sorted := sortStable (resultLt cfg) (completedEnum rs1) with hsorted
    have hmem : p ∈ sorted := List.get?_mem hj
    obtain ⟨hget, _⟩ := sorted_mem_get cfg rs1 p hmem
    have hassign : ((sorted.enum.map (fun q => (q.2.1, q.1 + 1))).lookup p.1) =
        some (j + 1) := by
      have := lookup_enum_assign Prod.fst sorted 0 j p
        (sorted_fst_nodup cfg rs1) hj
      simpa using this
    have hred : (calculate_positions cfg s).results =
        rs1.enum.map (fun q => applyAssignRow cfg
          (outlierValues cfg sorted)
          (sorted.enum.map (fun q => (q.2.1, q.1 + 1))) q.1 q.2) := by
      unfold calculate_positions
      rw [if_neg (by
        rw [Bool.not_eq_true, List.isEmpty_eq_false]
        exact hne)]
    refine ⟨applyAssignRow cfg (outlierValues cfg sorted)
      (sorted.enum.map (fun q => (q.2.1, q.1 + 1))) p.1 p.2, ?_, ?_, ?_, ?_⟩
    · rw [hred]
      exact get?_enum_map _ rs1 p.1 p.2 hget
    · exact applyAssignRow_position cfg _ _ p.1 p.2 (j + 1) hassign
    · exact (applyAssignRow_fields cfg _ _ p.1 p.2).1
    · exact applyAssignRow_metric cfg _ _ p.1 p.2

/-- C2 (witness): the amended theorem at the tied state — the row tied
at 12 ranked second receives position 2 and the one ranked third
position 3. -/
theorem c2_ranking_witness :
    ∃ r', (calculate_positions cfgCollege stTie).results.get? 2 = some r' ∧
      r'.final_position = some 3 ∧
      r'.status = "completed" ∧
      metric cfgCollege r' = some 12 :=
  (c2_ranking cfgCollege stTie (by decide)).2.2.2.2 2
    (2, { competitor_id := 3, result_value := some 12, status := "completed" })
    (by decide)

-- ---------------------------------------------------------------------------
-- C9 — gear-sharing avoidance without fallback
-- ---------------------------------------------------------------------------

/-- The gear-sharing check is symmetric whenever both competitors have
non-blank normalized names (the empty-name corner is asymmetric in the
source: an empty partner-value matches an empty name only on one
side). -/
theorem share_gear_symm (ev : EventCfg) (c1 c2 : GearComp)
    (h2 : pyLower (pyStrip c2.name) ≠ "")
    (h1 : pyLower (pyStrip c1.name) ≠ "") :
    competitors_share_gear_for_event c1 c2 ev =
      competitors_share_gear_for_event c2 c1 ev := by
  apply Bool.coe_iff_coe.mp
  have hchar : ∀ (a b : GearComp), pyLower (pyStrip b.name) ≠ "" →
      (competitors_share_gear_for_event a b ev = true ↔
        ((∃ kv ∈ a.gear_sharing, gear_key_matches_event kv.1 ev = true ∧
            pyLower (pyStrip kv.2) = pyLower (pyStrip b.name)) ∨
         (∃ kv ∈ a.gear_sharing, ∃ kv2 ∈ b.gear_sharing,
            gear_key_matches_event kv.1 ev = true ∧
            gear_key_matches_event kv2.1 ev = true ∧
            pyStrip kv.2 ≠ "" ∧
            pyStartsWith (pyStrip kv.2) "group:" = true ∧
            pyStrip kv2.2 = pyStrip kv.2) ∨
         (∃ kv2 ∈ b.gear_sharing, gear_key_matches_event kv2.1 ev = true ∧
            pyLower (pyStrip kv2.2) = pyLower (pyStrip a.name)))) := by
    intro a b hb
    unfold competitors_share_gear_for_event
    rw [Bool.or_eq_true]
    constructor
    · rintro (hA | hB)
      · rw [List.any_eq_true] at hA
        rcases hA with ⟨kv, hkv, hp⟩
        rw [Bool.and_eq_true] at hp
        rcases hp with ⟨hm, hrest⟩
        rw [Bool.and_eq_true] at hrest
        rcases hrest with ⟨hne', hor⟩
        rw [Bool.or_eq_true] at hor
        rcases hor with hname | hgroup
        · left
          exact ⟨kv, hkv, hm, by rwa [beq_iff_eq] at hname⟩
        · right; left
          rw [Bool.and_eq_true] at hgroup
          rcases hgroup with ⟨hpre, hany2⟩
          rw [List.any_eq_true] at hany2
          rcases hany2 with ⟨kv2, hkv2, hp2⟩
          rw [Bool.and_eq_true] at hp2
          refine ⟨kv, hkv, kv2, hkv2, hm, hp2.1, ?_, hpre,
            by rw [← beq_iff_eq]; exact hp2.2⟩
          simpa using hne'
      · right; right
        rw [List.any_eq_true] at hB
        rcases hB with ⟨kv2, hkv2, hp2⟩
        rw [Bool.and_eq_true] at hp2
        exact ⟨kv2, hkv2, hp2.1, by rw [← beq_iff_eq]; exact hp2.2⟩
    · rintro (⟨kv, hkv, hm, hname⟩ |
        ⟨kv, hkv, kv2, hkv2, hm, hm2, hne', hpre, heqv⟩ |
        ⟨kv2, hkv2, hm2, hname⟩)
      · left
        rw [List.any_eq_true]
        refine ⟨kv, hkv, ?_⟩
        dsimp only
        rw [Bool.and_eq_true]
        refine ⟨hm, ?_⟩
        rw [Bool.and_eq_true]
        have hvne : ¬ pyStrip kv.2 = "" := by
          intro he
          rw [he] at hname
          exact hb (by rw [← hname]; rfl)
        refine ⟨by simpa using hvne, ?_⟩
        rw [Bool.or_eq_true]
        left
        rw [beq_iff_eq]
        exact hname
      · left
        rw [List.any_eq_true]
        refine ⟨kv, hkv, ?_⟩
        dsimp only
        rw [Bool.and_eq_true]
        refine ⟨hm, ?_⟩
        rw [Bool.and_eq_true]
        refine ⟨by simpa using hne', ?_⟩
        rw [Bool.or_eq_true]
        right
        rw [Bool.and_eq_true]
        refine ⟨hpre, ?_⟩
        rw [List.any_eq_true]
        refine ⟨kv2, hkv2, ?_⟩
        dsimp only
        rw [Bool.and_eq_true]
        exact ⟨hm2, by rw [beq_iff_eq]; exact heqv⟩
      · right
        rw [List.any_eq_true]
        refine ⟨kv2, hkv2, ?_⟩
        dsimp only
        rw [Bool.and_eq_true]
        exact ⟨hm2, by rw [beq_iff_eq]; exact hname⟩
  rw [hchar c1 c2 h2, hchar c2 c1 h1]
  constructor
  · rintro (h | h | h)
    · right; right; exact h
    · right; left
      rcases h with ⟨kv, hkv, kv2, hkv2, hm, hm2, hne', hpre, heqv⟩
      refine ⟨kv2, hkv2, kv, hkv, hm2, hm, ?_, ?_, heqv.symm⟩
      · rw [heqv]; exact hne'
      · rw [heqv]; exact hpre
    · left; exact h
  · rintro (h | h | h)
    · right; right; exact h
    · right; left
      rcases h with ⟨kv, hkv, kv2, hkv2, hm, hm2, hne', hpre, heqv⟩
      refine ⟨kv2, hkv2, kv, hkv, hm2, hm, ?_, ?_, heqv.symm⟩
      · rw [heqv]; exact hne'
      · rw [heqv]; exact hpre
    · left; exact h

theorem tryPlaceConflictFree_some_spec (ev : EventCfg)
    (unit : List GearComp) (mx H : Nat) :
    ∀ (fuel : Nat) (heats : List (List GearComp)) (idx dir : Int)
      (h' : List (List GearComp)),
      (tryPlaceConflictFree ev unit mx H fuel heats idx dir).1 = some h' →
      ∃ k : Nat, h' = heats.set k (heats.getD k [] ++ unit) ∧
        (unit.any (fun comp =>
          has_gear_sharing_conflict comp (heats.getD k []) ev)) = false := by
  intro fuel
  induction fuel with
  | zero =>
    intro heats idx dir h' h
    simp [tryPlaceConflictFree] at h
  | succ n ih =>
    intro heats idx dir h' h
    rw [tryPlaceConflictFree] at h
    split at h
    case isTrue hcond =>
      simp only [Option.some.injEq] at h
      subst h
      rw [Bool.and_eq_true] at hcond
      exact ⟨idx.toNat, rfl, by simpa using hcond.2⟩
    case isFalse =>
      rcases hadv : advance_snake_index idx dir H with ⟨i2, d2⟩
      rw [hadv] at h
      exact ih heats i2 d2 h' h

theorem placeUnit_flag_mono (ev : EventCfg) (mx H : Nat)
    (acc : List (List GearComp) × Int × Int × Bool) (u : List GearComp)
    (hflag : (placeUnit ev mx H acc u).2.2.2 = false) :
    acc.2.2.2 = false ∧
      ∃ h', (tryPlaceConflictFree ev u mx H H acc.1 acc.2.1 acc.2.2.1).1 =
          some h' ∧ (placeUnit ev mx H acc u).1 = h' := by
  rcases acc with ⟨heats, idx, dir, fb⟩
  unfold placeUnit at hflag ⊢
  dsimp only at hflag ⊢
  rcases h1 : tryPlaceConflictFree ev u mx H H heats idx dir
    with ⟨res, i1, d1⟩
  rw [h1] at hflag
  cases res with
  | some h' =>
    dsimp only at hflag
    refine ⟨hflag, h', rfl, ?_⟩
    rcases advance_snake_index i1 d1 H with ⟨i2, d2⟩
    rfl
  | none =>
    exfalso
    dsimp only at hflag
    rcases h2 : tryPlaceAny u mx H H heats i1 d1 with ⟨res2, i2, d2⟩
    rw [h2] at hflag
    cases res2 with
    | some h'' =>
      dsimp only at hflag
      exact absurd hflag (by decide)
    | none =>
      dsimp only at hflag
      exact absurd hflag (by decide)

theorem foldl_placeUnit_flag_mono (ev : EventCfg) (mx H : Nat)
    (units : List (List GearComp)) :
    ∀ acc, (units.foldl (placeUnit ev mx H) acc).2.2.2 = false →
      acc.2.2.2 = false := by
  induction units with
  | nil => intro acc h; exact h
  | cons u t ih =>
    intro acc h
    rw [List.foldl_cons] at h
    exact (placeUnit_flag_mono ev mx H acc u (ih _ h)).1

theorem foldl_placeUnit_invariant (ev : EventCfg) (mx H : Nat)
    (comps : List GearComp) :
    ∀ (units : List (List GearComp)),
      (∀ u ∈ units, ∃ c ∈ comps, u = [c]) →
      ∀ acc, (∀ heat ∈ acc.1, (∀ x ∈ heat, x ∈ comps) ∧
          heat.Pairwise (fun a b =>
            competitors_share_gear_for_event b a ev = false)) →
        (units.foldl (placeUnit ev mx H) acc).2.2.2 = false →
        ∀ heat ∈ (units.foldl (placeUnit ev mx H) acc).1,
          (∀ x ∈ heat, x ∈ comps) ∧
            heat.Pairwise (fun a b =>
              competitors_share_gear_for_event b a ev = false) := by
  intro units
  induction units with
  | nil => intro _ acc hinv _; exact hinv
  | cons u t ih =>
    intro hu acc hinv hflag
    rw [List.foldl_cons] at hflag ⊢
    rcases hu u (List.mem_cons_self u t) with ⟨c, hc, rfl⟩
    have hflag1 : (placeUnit ev mx H acc [c]).2.2.2 = false :=
      foldl_placeUnit_flag_mono ev mx H t _ hflag
    obtain ⟨_, h', hsome, heq⟩ := placeUnit_flag_mono ev mx H acc [c] hflag1
    have hinv' : ∀ heat ∈ (placeUnit ev mx H acc [c]).1,
        (∀ x ∈ heat, x ∈ comps) ∧
          heat.Pairwise (fun a b =>
            competitors_share_gear_for_event b a ev = false) := by
      rw [heq]
      obtain ⟨k, hset, hnoc⟩ := tryPlaceConflictFree_some_spec ev [c] mx H H
        acc.1 acc.2.1 acc.2.2.1 h' hsome
      rw [hset]
      intro heat hheat
      rcases List.mem_or_eq_of_mem_set hheat with hold | hnew
      · exact hinv heat hold
      · subst hnew
        have hnoc2 : has_gear_sharing_conflict c (acc.1.getD k []) ev = false := by
          simpa using hnoc
        have hcur : (∀ x ∈ acc.1.getD k [], x ∈ comps) ∧
            (acc.1.getD k []).Pairwise (fun a b =>
              competitors_share_gear_for_event b a ev = false) := by
          by_cases hk : k < acc.1.length
          · rw [List.getD_eq_getElem acc.1 [] hk]
            exact hinv _ (List.getElem_mem hk)
          · rw [List.getD_eq_default acc.1 [] (Nat.le_of_not_lt hk)]
            exact ⟨fun x hx => absurd hx (List.not_mem_nil x),
              List.Pairwise.nil⟩
        constructor
        · intro x hx
          rcases List.mem_append.mp hx with hx | hx
          · exact hcur.1 x hx
          · rw [List.mem_singleton.mp hx]
            exact hc
        · rw [List.pairwise_append]
          refine ⟨hcur.2, List.pairwise_singleton _ _, ?_⟩
          intro a ha b hb
          rw [List.mem_singleton.mp hb]
          unfold has_gear_sharing_conflict at hnoc2
          rw [List.any_eq_false] at hnoc2
          have := hnoc2 a ha
          exact Bool.not_eq_true _ ▸ this
    exact ih (fun v hv => hu v (List.mem_cons_of_mem [c] hv)) _ hinv' hflag

/-- C9 (amended): for a non-partnered event, as long as every entrant
is placed by the conflict-checking first pass (the ghost fallback flag
stays false), no two competitors sharing gear for the event occupy the
same heat — regardless of the heat count; the fallback pass, taken when
the snake walk finds no conflict-free heat with capacity, is the only
way two gear-sharers can be co-located, and it can fire even with more
than one heat.  Names are assumed non-blank (the source's string
matching degenerates on empty names). -/
theorem c9_no_conflicts_without_fallback (ev : EventCfg)
    (comps : List GearComp) (num_heats max_per_heat : Nat)
    (hpart : ev.is_partnered = false)
    (hnames : ∀ c ∈ comps, pyLower (pyStrip c.name) ≠ "")
    (hfb : (generate_standard_heats_fb comps num_heats max_per_heat ev).2 =
      false) :
    ∀ heat ∈ (generate_standard_heats_fb comps num_heats max_per_heat ev).1,
      ∀ a ∈ heat, ∀ b ∈ heat, a ≠ b →
        competitors_share_gear_for_event a b ev = false := by
  have hunits : build_partner_units comps ev = comps.map (fun c => [c]) := by
    unfold build_partner_units
    rw [if_pos (by rw [hpart]; rfl)]
  have hu : ∀ u ∈ comps.map (fun c => [c]), ∃ c ∈ comps, u = [c] := by
    intro u hu
    rcases List.mem_map.mp hu with ⟨c, hc, hc2⟩
    exact ⟨c, hc, hc2.symm⟩
  unfold generate_standard_heats_fb at hfb ⊢
  rw [hunits] at hfb ⊢
  dsimp only at hfb ⊢
  rcases hfold : (comps.map (fun c => [c])).foldl
      (placeUnit ev max_per_heat num_heats)
      (List.replicate num_heats [], 0, 1, false) with ⟨heats, idx, dir, fb⟩
  rw [hfold] at hfb
  dsimp only at hfb ⊢
  have hinv0 : ∀ heat ∈ (List.replicate num_heats [] : List (List GearComp)),
      (∀ x ∈ heat, x ∈ comps) ∧
        heat.Pairwise (fun a b =>
          competitors_share_gear_for_event b a ev = false) := by
    intro heat hheat
    rw [List.eq_of_mem_replicate hheat]
    exact ⟨fun x hx => absurd hx (List.not_mem_nil x), List.Pairwise.nil⟩
  have hinvf := foldl_placeUnit_invariant ev max_per_heat num_heats comps
    (comps.map (fun c => [c])) hu
    (List.replicate num_heats [], 0, 1, false) hinv0
    (by rw [hfold]; exact hfb)
  rw [hfold] at hinvf
  intro heat hheat a ha b hb hne
  obtain ⟨hmem, hpw⟩ := hinvf heat hheat
  have hpw2 : heat.Pairwise (fun x y =>
      competitors_share_gear_for_event x y ev = false ∧
        competitors_share_gear_for_event y x ev = false) := by
    refine List.Pairwise.imp_of_mem ?_ hpw
    intro x y hx hy hR
    have hsymm := share_gear_symm ev y x (hnames x (hmem x hx))
      (hnames y (hmem y hy))
    exact ⟨hsymm.symm.trans hR, hR⟩
  have hsym2 : Symmetric (fun x y : GearComp =>
      competitors_share_gear_for_event x y ev = false ∧
        competitors_share_gear_for_event y x ev = false) :=
    fun x y h => ⟨h.2, h.1⟩
  exact (List.Pairwise.forall hsym2 hpw2 ha hb hne).1

/-- C9 (witness): the amended theorem at the five-entrant saw_hand
field placed entirely by the first pass (no fallback). -/
theorem c9_no_conflicts_without_fallback_witness :
    competitors_share_gear_for_event gAlice { id := 4, name := "Zoe" } evSaw
      = false :=
  c9_no_conflicts_without_fallback evSaw sawComps5 2 4 (by decide) (by decide)
    (by decide)
    [gAlice, { id := 4, name := "Zoe" }, { id := 5, name := "Max" }]
    (by decide) gAlice (by decide) { id := 4, name := "Zoe" } (by decide)
    (by decide)

-- ---------------------------------------------------------------------------
-- C1 — finalization is idempotent.  Generic list bookkeeping first.
-- ---------------------------------------------------------------------------

theorem sum_map_ite_eq {M : Type} [AddCommGroup M] (k : Nat) (g f : Nat → M) :
    ∀ (l : List Nat), l.Nodup → k ∈ l →
      (l.map (fun i => if i == k then g i else f i)).sum
        = g k + ((l.map f).sum - f k) := by
  intro l
  induction l with
  | nil => intro _ h; exact absurd h (List.not_mem_nil k)
  | cons j t ih =>
    intro hnd hk
    rcases List.nodup_cons.mp hnd with ⟨hj, hndt⟩
    rw [List.map_cons, List.map_cons, List.sum_cons, List.sum_cons]
    by_cases hjk : (j == k) = true
    · have hjk' : j = k := by simpa using hjk
      subst hjk'
      rw [if_pos hjk]
      have hpt : ∀ i ∈ t, (if i == j then g i else f i) = f i := by
        intro i hi
        rw [if_neg (by simpa using fun h : i = j => hj (h ▸ hi))]
      rw [List.map_congr_left hpt, add_sub_cancel_left]
    · have hkt : k ∈ t := by
        rcases List.mem_cons.mp hk with h | h
        · exact absurd (by simpa using h.symm) hjk
        · exact h
      rw [if_neg hjk, ih hndt hkt]
      abel

theorem lookup_eq_none_of_not_mem {β : Type} (k : Nat) :
    ∀ (es : List (Nat × β)), k ∉ es.map Prod.fst → es.lookup k = none := by
  intro es
  induction es with
  | nil => intro _; rfl
  | cons p t ih =>
    intro h
    rw [List.map_cons] at h
    rcases p with ⟨a, b⟩
    rw [List.lookup]
    have h1 : (k == a) = false := by
      cases h2 : (k == a) with
      | false => rfl
      | true =>
        exact absurd (by rw [show k = a from by simpa using h2]; exact
          List.mem_cons_self a (t.map Prod.fst)) h
    rw [h1]
    exact ih (fun hm => h (List.mem_cons_of_mem a hm))

theorem sum_lookup_range {M : Type} [AddCommGroup M] (w : Nat → Nat → M)
    (n : Nat) :
    ∀ (assign : List (Nat × Nat)), (assign.map Prod.fst).Nodup →
      (∀ p ∈ assign, p.1 < n) →
      ((List.range n).map (fun i =>
          match assign.lookup i with
          | some pos => w i pos
          | none => 0)).sum
        = (assign.map (fun p => w p.1 p.2)).sum := by
  intro assign
  induction assign with
  | nil =>
    intro _ _
    rw [List.map_nil, List.sum_nil]
    have hpt : ∀ i ∈ List.range n,
        (match List.lookup i ([] : List (Nat × Nat)) with
         | some pos => w i pos
         | none => (0 : M)) = (fun _ => (0 : M)) i := by
      intro i _
      rfl
    rw [List.map_congr_left hpt]
    simp
  | cons q t ih =>
    intro hnd hlt
    rcases q with ⟨k, pos⟩
    rw [List.map_cons] at hnd
    rcases List.nodup_cons.mp hnd with ⟨hkt, hndt⟩
    have hk : k ∈ List.range n :=
      List.mem_range.mpr (hlt (k, pos) (List.mem_cons_self _ _))
    have hpt : ∀ i ∈ List.range n,
        (match ((k, pos) :: t).lookup i with
         | some p2 => w i p2
         | none => (0 : M))
          = (fun i => if i == k then w i pos else
              (match t.lookup i with
               | some p2 => w i p2
               | none => (0 : M))) i := by
      intro i _
      dsimp only
      rw [List.lookup]
      by_cases hik : (i == k) = true
      · rw [hik]
        rfl
      · rw [Bool.not_eq_true] at hik
        rw [hik]
        rfl
    rw [List.map_congr_left hpt,
      sum_map_ite_eq k (fun i => w i pos)
        (fun i => match t.lookup i with
                  | some p2 => w i p2
                  | none => (0 : M)) (List.range n) (List.nodup_range n) hk,
      lookup_eq_none_of_not_mem k t hkt]
    rw [ih hndt (fun p hp => hlt p (List.mem_cons_of_mem _ hp)), List.map_cons,
      List.sum_cons]
    rw [show (match (none : Option Nat) with
        | some p2 => w k p2
        | none => (0 : M)) = (0 : M) from rfl, sub_zero]

theorem sum_map_filter_eq {M α : Type} [AddCommMonoid M]
    (q : α → Bool) (w : α → M) :
    ∀ (l : List α), ((l.filter q).map w).sum
      = (l.map (fun x => if q x then w x else 0)).sum := by
  intro l
  induction l with
  | nil => rfl
  | cons a t ih =>
    rw [List.filter_cons, List.map_cons, List.sum_cons]
    by_cases hq : q a = true
    · rw [if_pos hq, if_pos hq, List.map_cons, List.sum_cons, ih]
    · rw [if_neg hq, if_neg hq, ih, zero_add]

theorem enum_map_getD {α β : Type} (l : List α) (d : α) (G : Nat × α → β) :
    l.enum.map G = (List.range l.length).map (fun i => G (i, l.getD i d)) := by
  apply List.ext_getElem
  · rw [List.length_map, List.enum_length, List.length_map, List.length_range]
  · intro i h1 h2
    have hi : i < l.length := by
      rw [List.length_map, List.enum_length] at h1
      exact h1
    have hi2 : i < l.enum.length := by
      rw [List.enum_length]
      exact hi
    rw [List.getElem_map, List.getElem_map, List.getElem_enum,
      List.getElem_range, List.getD_eq_getElem l d hi]

theorem enum_enum_map {α β : Type} (l : List α) (f : Nat × α → β) :
    (l.enum.map f).enum = l.enum.map (fun p => (p.1, f p)) := by
  apply List.ext_getElem
  · rw [List.enum_length, List.length_map, List.length_map, List.enum_length]
  · intro i h1 h2
    have hi : i < l.length := by
      rw [List.enum_length, List.length_map, List.enum_length] at h1
      exact h1
    have hi2 : i < (l.enum.map f).enum.length := h1
    rw [List.getElem_enum, List.getElem_map, List.getElem_enum,
      List.getElem_map, List.getElem_enum]

theorem mem_enum_get? {α : Type} {l : List α} {p : Nat × α}
    (h : p ∈ l.enum) : l.get? p.1 = some p.2 := by
  rcases p with ⟨i, a⟩
  exact List.mk_mem_enum_iff_get?.mp h

theorem mem_enum_snd {α : Type} {l : List α} {p : Nat × α}
    (h : p ∈ l.enum) : p.2 ∈ l :=
  List.get?_mem (mem_enum_get? h)

theorem mem_enum_fst_lt {α : Type} {l : List α} {p : Nat × α}
    (h : p ∈ l.enum) : p.1 < l.length := by
  obtain ⟨hlt, _⟩ := List.get?_eq_some.mp (mem_enum_get? h)
  exact hlt

theorem mem_enum_getD {α : Type} {l : List α} {p : Nat × α} (d : α)
    (h : p ∈ l.enum) : l.getD p.1 d = p.2 := by
  obtain ⟨hlt, hget⟩ := List.get?_eq_some.mp (mem_enum_get? h)
  rw [List.getD_eq_getElem l d hlt]
  exact hget

theorem map_insertStable {α β : Type} (lt : α → α → Bool)
    (lt' : β → β → Bool) (g : α → β)
    (hg : ∀ x y, lt' (g x) (g y) = lt x y) (x : α) :
    ∀ (l : List α),
      insertStable lt' (g x) (l.map g) = (insertStable lt x l).map g := by
  intro l
  induction l with
  | nil => rfl
  | cons y t ih =>
    rw [List.map_cons, insertStable, insertStable, hg]
    by_cases h : lt x y = true
    · rw [if_pos h, if_pos h, List.map_cons, List.map_cons]
    · rw [if_neg h, if_neg h, List.map_cons, ih]

theorem map_sortStable {α β : Type} (lt : α → α → Bool)
    (lt' : β → β → Bool) (g : α → β)
    (hg : ∀ x y, lt' (g x) (g y) = lt x y) (l : List α) :
    sortStable lt' (l.map g) = (sortStable lt l).map g := by
  unfold sortStable
  suffices h : ∀ acc,
      (l.map g).foldl (fun acc x => insertStable lt' x acc) (acc.map g)
        = (l.foldl (fun acc x => insertStable lt x acc) acc).map g by
    simpa using h []
  induction l with
  | nil => intro acc; rfl
  | cons a t ih =>
    intro acc
    rw [List.map_cons, List.foldl_cons, List.foldl_cons,
      map_insertStable lt lt' g hg a acc]
    exact ih (insertStable lt a acc)

theorem foldl_map_comm {R C : Type} (u : R → C → C) :
    ∀ (rows : List R) (cs : List C),
      rows.foldl (fun cs r => cs.map (u r)) cs
        = cs.map (fun c => rows.foldl (fun c r => u r c) c) := by
  intro rows
  induction rows with
  | nil =>
    intro cs
    rw [List.foldl_nil]
    exact (List.map_id' cs).symm
  | cons r t ih =>
    intro cs
    rw [List.foldl_cons, ih, List.map_map]
    rfl

theorem PLACEMENT_POINTS_nonneg (p : Nat) : 0 ≤ PLACEMENT_POINTS p := by
  unfold PLACEMENT_POINTS
  split <;> omega

theorem get_payout_nonneg (cfg : EventCfg)
    (hpay : ∀ p ∈ cfg.payouts, 0 ≤ p.2) (pos : Nat) :
    0 ≤ cfg.get_payout_for_position pos := by
  unfold EventCfg.get_payout_for_position
  cases h : cfg.payouts.lookup pos with
  | none => exact le_refl 0
  | some a => exact hpay (pos, a) (mem_of_lookup_eq_some h)

theorem undoRow_fields (cfg : EventCfg) (r : ResultRow) :
    (undoRow cfg r).status = r.status ∧
      (undoRow cfg r).best_run = r.best_run ∧
      (undoRow cfg r).result_value = r.result_value ∧
      (undoRow cfg r).competitor_id = r.competitor_id := by
  unfold undoRow
  by_cases hc : (cfg.event_type == "college") = true
  · rw [if_pos hc]
    split
    · exact ⟨rfl, rfl, rfl, rfl⟩
    · exact ⟨rfl, rfl, rfl, rfl⟩
  · rw [if_neg hc]
    split
    · exact ⟨rfl, rfl, rfl, rfl⟩
    · exact ⟨rfl, rfl, rfl, rfl⟩

theorem undoRow_metric (cfg : EventCfg) (r : ResultRow) :
    metric cfg (undoRow cfg r) = metric cfg r := by
  obtain ⟨_, hbr, hrv, _⟩ := undoRow_fields cfg r
  unfold metric
  split
  · exact hbr
  · exact hrv

theorem undoRow_pa (cfg : EventCfg) (r : ResultRow)
    (hc : (cfg.event_type == "college") = true) :
    (undoRow cfg r).points_awarded = 0 := by
  unfold undoRow
  rw [if_pos hc]
  by_cases hz : (r.points_awarded == 0) = true
  · rw [if_pos hz]
    simpa using hz
  · rw [if_neg hz]

theorem undoRow_payout (cfg : EventCfg) (r : ResultRow)
    (hc : ¬(cfg.event_type == "college") = true) :
    (undoRow cfg r).payout_amount = 0 := by
  unfold undoRow
  rw [if_neg hc]
  by_cases hz : (r.payout_amount == 0) = true
  · rw [if_pos hz]
    simpa using hz
  · rw [if_neg hz]

theorem undoRow_idem (cfg : EventCfg) (r : ResultRow) :
    undoRow cfg (undoRow cfg r) = undoRow cfg r := by
  set u := undoRow cfg r with hu
  unfold undoRow
  by_cases hc : (cfg.event_type == "college") = true
  · rw [if_pos hc, if_pos (show (u.points_awarded == 0) = true by
      rw [hu, undoRow_pa cfg r hc]; decide)]
  · rw [if_neg hc, if_pos (show (u.payout_amount == 0) = true by
      rw [hu, undoRow_payout cfg r hc]; decide)]

theorem applyAssignRow_none (cfg : EventCfg) (values : List Val)
    (assign : List (Nat × Nat)) (i : Nat) (r : ResultRow)
    (h : assign.lookup i = none) :
    applyAssignRow cfg values assign i r = r := by
  unfold applyAssignRow
  rw [h]

theorem applyAssignRow_some_college (cfg : EventCfg) (values : List Val)
    (assign : List (Nat × Nat)) (i : Nat) (r : ResultRow) (pos : Nat)
    (h : assign.lookup i = some pos)
    (hc : (cfg.event_type == "college") = true) :
    applyAssignRow cfg values assign i r
      = { r with final_position := some pos,
                 points_awarded := PLACEMENT_POINTS pos,
                 is_flagged := flaggedOutlier values (metric cfg r) } := by
  unfold applyAssignRow
  rw [h]
  dsimp only
  rw [if_pos hc]

theorem applyAssignRow_some_pro (cfg : EventCfg) (values : List Val)
    (assign : List (Nat × Nat)) (i : Nat) (r : ResultRow) (pos : Nat)
    (h : assign.lookup i = some pos)
    (hc : ¬(cfg.event_type == "college") = true) :
    applyAssignRow cfg values assign i r
      = { r with final_position := some pos,
                 payout_amount := cfg.get_payout_for_position pos,
                 is_flagged := flaggedOutlier values (metric cfg r) } := by
  unfold applyAssignRow
  rw [h]
  dsimp only
  rw [if_neg hc]

theorem applyAssign_undo_apply (cfg : EventCfg) (values : List Val)
    (assign : List (Nat × Nat)) (i : Nat) (r : ResultRow)
    (hfix : undoRow cfg r = r) :
    applyAssignRow cfg values assign i
        (undoRow cfg (applyAssignRow cfg values assign i r))
      = applyAssignRow cfg values assign i r := by
  cases hl : assign.lookup i with
  | none =>
    rw [applyAssignRow_none cfg values assign i r hl, hfix,
      applyAssignRow_none cfg values assign i r hl]
  | some pos =>
    by_cases hc : (cfg.event_type == "college") = true
    · rw [applyAssignRow_some_college cfg values assign i r pos hl hc]
      by_cases hz : (PLACEMENT_POINTS pos == 0) = true
      · have hu : undoRow cfg
              { r with final_position := some pos,
                       points_awarded := PLACEMENT_POINTS pos,
                       is_flagged := flaggedOutlier values (metric cfg r) }
            = { r with final_position := some pos,
                       points_awarded := PLACEMENT_POINTS pos,
                       is_flagged := flaggedOutlier values (metric cfg r) } := by
          unfold undoRow
          rw [if_pos hc]
          dsimp only
          rw [if_pos hz]
        rw [hu, applyAssignRow_some_college cfg values assign i _ pos hl hc]
        rfl
      · have hu : undoRow cfg
              { r with final_position := some pos,
                       points_awarded := PLACEMENT_POINTS pos,
                       is_flagged := flaggedOutlier values (metric cfg r) }
            = { r with final_position := none,
                       points_awarded := 0,
                       is_flagged := flaggedOutlier values (metric cfg r) } := by
          unfold undoRow
          rw [if_pos hc]
          dsimp only
          rw [if_neg hz]
        rw [hu, applyAssignRow_some_college cfg values assign i _ pos hl hc]
        rfl
    · rw [applyAssignRow_some_pro cfg values assign i r pos hl hc]
      by_cases hz : (cfg.get_payout_for_position pos == 0) = true
      · have hu : undoRow cfg
              { r with final_position := some pos,
                       payout_amount := cfg.get_payout_for_position pos,
                       is_flagged := flaggedOutlier values (metric cfg r) }
            = { r with final_position := some pos,
                       payout_amount := cfg.get_payout_for_position pos,
                       is_flagged := flaggedOutlier values (metric cfg r) } := by
          unfold undoRow
          rw [if_neg hc]
          dsimp only
          rw [if_pos hz]
        rw [hu, applyAssignRow_some_pro cfg values assign i _ pos hl hc]
        rfl
      · have hu : undoRow cfg
              { r with final_position := some pos,
                       payout_amount := cfg.get_payout_for_position pos,
                       is_flagged := flaggedOutlier values (metric cfg r) }
            = { r with final_position := none,
                       payout_amount := 0,
                       is_flagged := flaggedOutlier values (metric cfg r) } := by
          unfold undoRow
          rw [if_neg hc]
          dsimp only
          rw [if_neg hz]
        rw [hu, applyAssignRow_some_pro cfg values assign i _ pos hl hc]
        rfl

theorem undoCollegeComps_eq_map (rows : List ResultRow)
    (cs : List CollegeComp) :
    undoCollegeComps rows cs
      = cs.map (fun c => rows.foldl (fun c r => undoStepC r c) c) := by
  have h1 : undoCollegeComps rows cs
      = rows.foldl (fun cs r => cs.map (undoStepC r)) cs := by
    unfold undoCollegeComps
    apply List.foldl_ext
    intro cs r _
    by_cases hpa : (r.points_awarded == 0) = true
    · rw [if_pos hpa]
      have hst : ∀ c ∈ cs, undoStepC r c = c := by
        intro c _
        unfold undoStepC
        rw [if_pos hpa]
      rw [List.map_congr_left hst, List.map_id']
    · rw [if_neg hpa]
      apply List.map_congr_left
      intro c _
      unfold undoStepC
      rw [if_neg hpa]
  rw [h1, foldl_map_comm]

theorem undoProComps_eq_map (rows : List ResultRow) (cs : List ProComp) :
    undoProComps rows cs
      = cs.map (fun c => rows.foldl (fun c r => undoStepP r c) c) := by
  have h1 : undoProComps rows cs
      = rows.foldl (fun cs r => cs.map (undoStepP r)) cs := by
    unfold undoProComps
    apply List.foldl_ext
    intro cs r _
    by_cases hpa : (r.payout_amount == 0) = true
    · rw [if_pos hpa]
      have hst : ∀ c ∈ cs, undoStepP r c = c := by
        intro c _
        unfold undoStepP
        rw [if_pos hpa]
      rw [List.map_congr_left hst, List.map_id']
    · rw [if_neg hpa]
      apply List.map_congr_left
      intro c _
      unfold undoStepP
      rw [if_neg hpa]
  rw [h1, foldl_map_comm]

theorem awardCollegeComps_eq_map (sorted : List (Nat × ResultRow))
    (cs : List CollegeComp) :
    awardCollegeComps sorted cs
      = cs.map (fun c => sorted.enum.foldl (fun c p => awardStepC p c) c) :=
  foldl_map_comm awardStepC sorted.enum cs

theorem awardProComps_eq_map (cfg : EventCfg)
    (sorted : List (Nat × ResultRow)) (cs : List ProComp) :
    awardProComps cfg sorted cs
      = cs.map (fun c =>
          sorted.enum.foldl (fun c p => awardStepP cfg p c) c) :=
  foldl_map_comm (awardStepP cfg) sorted.enum cs

theorem awardStepC_eq (p : Nat × Nat × ResultRow) (c : CollegeComp) :
    awardStepC p c
      = if c.id == p.2.2.competitor_id then
          { c with individual_points :=
              c.individual_points + PLACEMENT_POINTS (p.1 + 1) }
        else c := rfl

theorem awardStepP_eq (cfg : EventCfg) (p : Nat × Nat × ResultRow)
    (c : ProComp) :
    awardStepP cfg p c
      = if c.id == p.2.2.competitor_id then
          { c with total_earnings :=
              c.total_earnings + cfg.get_payout_for_position (p.1 + 1) }
        else c := rfl

theorem awardFoldC (L : List (Nat × Nat × ResultRow)) :
    ∀ (c : CollegeComp),
      L.foldl (fun c p => awardStepC p c) c
        = { c with individual_points := c.individual_points
              + ((L.filter (fun p => c.id == p.2.2.competitor_id)).map
                  (fun p => PLACEMENT_POINTS (p.1 + 1))).sum } := by
  induction L with
  | nil =>
    intro c
    rw [List.foldl_nil, List.filter_nil, List.map_nil, List.sum_nil, add_zero]
  | cons p t ih =>
    intro c
    rw [List.foldl_cons, List.filter_cons, awardStepC_eq p c]
    by_cases hid : (c.id == p.2.2.competitor_id) = true
    · rw [if_pos hid, if_pos hid, ih, List.map_cons, List.sum_cons]
      dsimp only
      rw [add_assoc]
    · rw [if_neg hid, if_neg hid, ih]

theorem awardFoldP (cfg : EventCfg) (L : List (Nat × Nat × ResultRow)) :
    ∀ (c : ProComp),
      L.foldl (fun c p => awardStepP cfg p c) c
        = { c with total_earnings := c.total_earnings
              + ((L.filter (fun p => c.id == p.2.2.competitor_id)).map
                  (fun p => cfg.get_payout_for_position (p.1 + 1))).sum } := by
  induction L with
  | nil =>
    intro c
    rw [List.foldl_nil, List.filter_nil, List.map_nil, List.sum_nil, add_zero]
  | cons p t ih =>
    intro c
    rw [List.foldl_cons, List.filter_cons, awardStepP_eq cfg p c]
    by_cases hid : (c.id == p.2.2.competitor_id) = true
    · rw [if_pos hid, if_pos hid, ih, List.map_cons, List.sum_cons]
      dsimp only
      rw [add_assoc]
    · rw [if_neg hid, if_neg hid, ih]

theorem undoStepC_eq (r : ResultRow) (c : CollegeComp) :
    undoStepC r c
      = if r.points_awarded == 0 then c
        else if c.id == r.competitor_id then
          { c with individual_points := max 0 (c.individual_points - r.points_awarded) }
        else c := rfl

theorem undoStepP_eq (r : ResultRow) (c : ProComp) :
    undoStepP r c
      = if r.payout_amount == 0 then c
        else if c.id == r.competitor_id then
          { c with total_earnings := max 0 (c.total_earnings - r.payout_amount) }
        else c := rfl

theorem undoFoldC (rows : List ResultRow) :
    ∀ (c : CollegeComp) (y : Int), 0 ≤ y →
      (∀ r ∈ rows, 0 ≤ r.points_awarded) →
      c.individual_points
          = y + ((rows.filter (fun r => c.id == r.competitor_id)).map
              (fun r => r.points_awarded)).sum →
      rows.foldl (fun c r => undoStepC r c) c
        = { c with individual_points := y } := by
  induction rows with
  | nil =>
    intro c y _ _ hx
    rw [List.foldl_nil]
    rw [List.filter_nil, List.map_nil, List.sum_nil, add_zero] at hx
    rw [show y = c.individual_points from hx.symm]
  | cons r t ih =>
    intro c y hy hpa hx
    rw [List.filter_cons] at hx
    rw [List.foldl_cons, undoStepC_eq r c]
    have hpa0 : 0 ≤ r.points_awarded := hpa r (List.mem_cons_self r t)
    have hpat : ∀ r' ∈ t, 0 ≤ r'.points_awarded :=
      fun r' h => hpa r' (List.mem_cons_of_mem r h)
    by_cases hid : (c.id == r.competitor_id) = true
    · rw [if_pos hid, List.map_cons, List.sum_cons] at hx
      by_cases hz : (r.points_awarded == 0) = true
      · have hz' : r.points_awarded = 0 := by simpa using hz
        rw [if_pos hz]
        apply ih c y hy hpat
        omega
      · rw [if_neg hz, if_pos hid]
        have hS : 0 ≤ ((t.filter (fun r' => c.id == r'.competitor_id)).map
            (fun r' => r'.points_awarded)).sum := by
          apply List.sum_nonneg
          intro x hx2
          rcases List.mem_map.mp hx2 with ⟨r', hr', rfl⟩
          exact hpat r' (List.mem_of_mem_filter hr')
        refine (ih _ y hy hpat ?_).trans ?_
        · show max 0 (c.individual_points - r.points_awarded)
            = y + ((t.filter (fun r' => c.id == r'.competitor_id)).map
                (fun r' => r'.points_awarded)).sum
          rw [max_eq_right (by omega)]
          omega
        · rfl
    · rw [if_neg hid] at hx
      have hstep : (if r.points_awarded == 0 then c
          else if c.id == r.competitor_id then
            { c with individual_points := max 0 (c.individual_points - r.points_awarded) }
          else c) = c := by
        by_cases hz : (r.points_awarded == 0) = true
        · rw [if_pos hz]
        · rw [if_neg hz, if_neg hid]
      rw [hstep]
      exact ih c y hy hpat hx

theorem undoFoldP (rows : List ResultRow) :
    ∀ (c : ProComp) (y : Val), 0 ≤ y →
      (∀ r ∈ rows, 0 ≤ r.payout_amount) →
      c.total_earnings
          = y + ((rows.filter (fun r => c.id == r.competitor_id)).map
              (fun r => r.payout_amount)).sum →
      rows.foldl (fun c r => undoStepP r c) c
        = { c with total_earnings := y } := by
  induction rows with
  | nil =>
    intro c y _ _ hx
    rw [List.foldl_nil]
    rw [List.filter_nil, List.map_nil, List.sum_nil, add_zero] at hx
    rw [show y = c.total_earnings from hx.symm]
  | cons r t ih =>
    intro c y hy hpa hx
    rw [List.filter_cons] at hx
    rw [List.foldl_cons, undoStepP_eq r c]
    have hpa0 : 0 ≤ r.payout_amount := hpa r (List.mem_cons_self r t)
    have hpat : ∀ r' ∈ t, 0 ≤ r'.payout_amount :=
      fun r' h => hpa r' (List.mem_cons_of_mem r h)
    by_cases hid : (c.id == r.competitor_id) = true
    · rw [if_pos hid, List.map_cons, List.sum_cons] at hx
      by_cases hz : (r.payout_amount == 0) = true
      · have hz' : r.payout_amount = 0 := by simpa using hz
        rw [if_pos hz]
        apply ih c y hy hpat
        rw [hx, hz']
        ring
      · rw [if_neg hz, if_pos hid]
        have hS : 0 ≤ ((t.filter (fun r' => c.id == r'.competitor_id)).map
            (fun r' => r'.payout_amount)).sum := by
          apply List.sum_nonneg
          intro x hx2
          rcases List.mem_map.mp hx2 with ⟨r', hr', rfl⟩
          exact hpat r' (List.mem_of_mem_filter hr')
        refine (ih _ y hy hpat ?_).trans ?_
        · show max 0 (c.total_earnings - r.payout_amount)
            = y + ((t.filter (fun r' => c.id == r'.competitor_id)).map
                (fun r' => r'.payout_amount)).sum
          rw [max_eq_right (by linarith)]
          linarith
        · rfl
    · rw [if_neg hid] at hx
      have hstep : (if r.payout_amount == 0 then c
          else if c.id == r.competitor_id then
            { c with total_earnings := max 0 (c.total_earnings - r.payout_amount) }
          else c) = c := by
        by_cases hz : (r.payout_amount == 0) = true
        · rw [if_pos hz]
        · rw [if_neg hz, if_neg hid]
      rw [hstep]
      exact ih c y hy hpat hx

theorem undoStepC_foldl_nonneg (rows : List ResultRow) :
    ∀ (c : CollegeComp), 0 ≤ c.individual_points →
      0 ≤ (rows.foldl (fun c r => undoStepC r c) c).individual_points := by
  induction rows with
  | nil => intro c h; exact h
  | cons r t ih =>
    intro c h
    rw [List.foldl_cons]
    apply ih
    rw [undoStepC_eq]
    by_cases hz : (r.points_awarded == 0) = true
    · rw [if_pos hz]
      exact h
    · rw [if_neg hz]
      by_cases hid : (c.id == r.competitor_id) = true
      · rw [if_pos hid]
        exact le_max_left 0 _
      · rw [if_neg hid]
        exact h

theorem undoStepP_foldl_nonneg (rows : List ResultRow) :
    ∀ (c : ProComp), 0 ≤ c.total_earnings →
      0 ≤ (rows.foldl (fun c r => undoStepP r c) c).total_earnings := by
  induction rows with
  | nil => intro c h; exact h
  | cons r t ih =>
    intro c h
    rw [List.foldl_cons]
    apply ih
    rw [undoStepP_eq]
    by_cases hz : (r.payout_amount == 0) = true
    · rw [if_pos hz]
      exact h
    · rw [if_neg hz]
      by_cases hid : (c.id == r.competitor_id) = true
      · rw [if_pos hid]
        exact le_max_left 0 _
      · rw [if_neg hid]
        exact h

theorem undoCollegeComps_nonneg (rows : List ResultRow)
    (cs : List CollegeComp) (h : ∀ c ∈ cs, 0 ≤ c.individual_points) :
    ∀ c ∈ undoCollegeComps rows cs, 0 ≤ c.individual_points := by
  rw [undoCollegeComps_eq_map]
  intro c hc
  rcases List.mem_map.mp hc with ⟨c0, hc0, rfl⟩
  exact undoStepC_foldl_nonneg rows c0 (h c0 hc0)

theorem undoProComps_nonneg (rows : List ResultRow) (cs : List ProComp)
    (h : ∀ c ∈ cs, 0 ≤ c.total_earnings) :
    ∀ c ∈ undoProComps rows cs, 0 ≤ c.total_earnings := by
  rw [undoProComps_eq_map]
  intro c hc
  rcases List.mem_map.mp hc with ⟨c0, hc0, rfl⟩
  exact undoStepP_foldl_nonneg rows c0 (h c0 hc0)

theorem undoCollegeComps_zero (rows : List ResultRow)
    (h : ∀ r ∈ rows, r.points_awarded = 0) (cs : List CollegeComp) :
    undoCollegeComps rows cs = cs := by
  rw [undoCollegeComps_eq_map]
  have hfold : ∀ c ∈ cs, rows.foldl (fun c r => undoStepC r c) c = c := by
    intro c _
    induction rows with
    | nil => rfl
    | cons r t ih =>
      rw [List.foldl_cons, undoStepC_eq,
        if_pos (show (r.points_awarded == 0) = true by
          rw [h r (List.mem_cons_self r t)]; decide)]
      exact ih (fun r' h' => h r' (List.mem_cons_of_mem r h'))
  rw [List.map_congr_left hfold, List.map_id']

theorem undoProComps_zero (rows : List ResultRow)
    (h : ∀ r ∈ rows, r.payout_amount = 0) (cs : List ProComp) :
    undoProComps rows cs = cs := by
  rw [undoProComps_eq_map]
  have hfold : ∀ c ∈ cs, rows.foldl (fun c r => undoStepP r c) c = c := by
    intro c _
    induction rows with
    | nil => rfl
    | cons r t ih =>
      rw [List.foldl_cons, undoStepP_eq,
        if_pos (show (r.payout_amount == 0) = true by
          rw [h r (List.mem_cons_self r t)]; decide)]
      exact ih (fun r' h' => h r' (List.mem_cons_of_mem r h'))
  rw [List.map_congr_left hfold, List.map_id']

theorem reassignRow_fst (cfg : EventCfg) (values : List Val)
    (assign : List (Nat × Nat)) (p : Nat × ResultRow) :
    (reassignRow cfg values assign p).1 = p.1 := rfl

theorem reassignRow_status (cfg : EventCfg) (values : List Val)
    (assign : List (Nat × Nat)) (p : Nat × ResultRow) :
    (reassignRow cfg values assign p).2.status = p.2.status := by
  unfold reassignRow
  rw [(undoRow_fields cfg _).1,
    (applyAssignRow_fields cfg values assign p.1 p.2).1]

theorem reassignRow_cid (cfg : EventCfg) (values : List Val)
    (assign : List (Nat × Nat)) (p : Nat × ResultRow) :
    (reassignRow cfg values assign p).2.competitor_id
      = p.2.competitor_id := by
  unfold reassignRow
  rw [(undoRow_fields cfg _).2.2.2,
    (applyAssignRow_fields cfg values assign p.1 p.2).2.2.2]

theorem reassignRow_metric (cfg : EventCfg) (values : List Val)
    (assign : List (Nat × Nat)) (p : Nat × ResultRow) :
    metric cfg (reassignRow cfg values assign p).2 = metric cfg p.2 := by
  unfold reassignRow
  rw [undoRow_metric, applyAssignRow_metric]

theorem reassignRow_lt (cfg : EventCfg) (values : List Val)
    (assign : List (Nat × Nat)) (x y : Nat × ResultRow) :
    resultLt cfg (reassignRow cfg values assign x)
        (reassignRow cfg values assign y)
      = resultLt cfg x y := by
  unfold resultLt
  rw [reassignRow_metric cfg values assign x,
    reassignRow_metric cfg values assign y]

theorem completed_reassign (cfg : EventCfg) (values : List Val)
    (assign : List (Nat × Nat)) (rs1 : List ResultRow) :
    completedEnum
        ((rs1.enum.map (fun p => applyAssignRow cfg values assign p.1 p.2)).map
          (undoRow cfg))
      = (completedEnum rs1).map (reassignRow cfg values assign) := by
  unfold completedEnum
  rw [List.map_map]
  have h1 : ((rs1.enum.map ((undoRow cfg) ∘
        (fun p : Nat × ResultRow =>
          applyAssignRow cfg values assign p.1 p.2))).enum)
      = rs1.enum.map (reassignRow cfg values assign) := by
    have h2 : ((rs1.enum.map
          (fun p : Nat × ResultRow =>
            (reassignRow cfg values assign p).2)).enum)
        = rs1.enum.map (fun p => (p.1,
            (fun p : Nat × ResultRow =>
              (reassignRow cfg values assign p).2) p)) :=
      enum_enum_map rs1
        (fun p : Nat × ResultRow => (reassignRow cfg values assign p).2)
    exact h2
  rw [h1]
  have h3 : (rs1.enum.map (reassignRow cfg values assign)).filter
        (fun p => p.2.status == "completed")
      = (rs1.enum.filter ((fun p : Nat × ResultRow =>
          p.2.status == "completed") ∘ (reassignRow cfg values assign))).map
        (reassignRow cfg values assign) :=
    List.filter_map (reassignRow cfg values assign) rs1.enum
  rw [h3]
  have h4 : ∀ q ∈ rs1.enum,
      ((fun p : Nat × ResultRow => p.2.status == "completed") ∘
        (reassignRow cfg values assign)) q
      = (fun p : Nat × ResultRow => p.2.status == "completed") q := by
    intro q _
    show ((reassignRow cfg values assign q).2.status == "completed")
      = (q.2.status == "completed")
    rw [reassignRow_status]
  rw [List.filter_congr h4]

theorem ranked_reassign (cfg : EventCfg) (values : List Val)
    (assign : List (Nat × Nat)) (rs1 : List ResultRow) :
    rankedOf cfg
        ((rs1.enum.map (fun p => applyAssignRow cfg values assign p.1 p.2)).map
          (undoRow cfg))
      = (rankedOf cfg rs1).map (reassignRow cfg values assign) := by
  unfold rankedOf
  rw [completed_reassign]
  exact map_sortStable (resultLt cfg) (resultLt cfg)
    (reassignRow cfg values assign)
    (fun x y => reassignRow_lt cfg values assign x y) (completedEnum rs1)

theorem values_reassign (cfg : EventCfg) (values : List Val)
    (assign : List (Nat × Nat)) (sorted : List (Nat × ResultRow)) :
    outlierValues cfg (sorted.map (reassignRow cfg values assign))
      = outlierValues cfg sorted := by
  unfold outlierValues
  rw [List.filterMap_map]
  apply List.filterMap_congr
  intro p _
  show metric cfg (reassignRow cfg values assign p).2 = metric cfg p.2
  rw [reassignRow_metric]

theorem assign_reassign (cfg : EventCfg) (values : List Val)
    (assign : List (Nat × Nat)) (sorted : List (Nat × ResultRow)) :
    (sorted.map (reassignRow cfg values assign)).enum.map
        (fun p => (p.2.1, p.1 + 1))
      = sorted.enum.map (fun p => (p.2.1, p.1 + 1)) := by
  rw [List.enum_map, List.map_map]
  apply List.map_congr_left
  intro p _
  rcases p with ⟨a, b⟩
  rfl

theorem results_reassign (cfg : EventCfg) (values : List Val)
    (assign : List (Nat × Nat)) (rs1 : List ResultRow)
    (hfix : ∀ r ∈ rs1, undoRow cfg r = r) :
    ((rs1.enum.map (fun p => applyAssignRow cfg values assign p.1 p.2)).map
        (undoRow cfg)).enum.map
      (fun p => applyAssignRow cfg values assign p.1 p.2)
      = rs1.enum.map (fun p => applyAssignRow cfg values assign p.1 p.2) := by
  rw [List.map_map]
  have h1 : ((rs1.enum.map ((undoRow cfg) ∘
        (fun p : Nat × ResultRow =>
          applyAssignRow cfg values assign p.1 p.2))).enum)
      = rs1.enum.map (reassignRow cfg values assign) :=
    enum_enum_map rs1
      (fun p : Nat × ResultRow => (reassignRow cfg values assign p).2)
  rw [h1, List.map_map]
  apply List.map_congr_left
  intro p hp
  show applyAssignRow cfg values assign p.1
      (undoRow cfg (applyAssignRow cfg values assign p.1 p.2))
    = applyAssignRow cfg values assign p.1 p.2
  exact applyAssign_undo_apply cfg values assign p.1 p.2
    (hfix p.2 (mem_enum_snd hp))

theorem list_any_congr {α : Type} (p q : α → Bool) :
    ∀ (l : List α), (∀ x ∈ l, p x = q x) → l.any p = l.any q := by
  intro l
  induction l with
  | nil => intro _; rfl
  | cons a t ih =>
    intro h
    rw [List.any_cons, List.any_cons, h a (List.mem_cons_self a t),
      ih (fun x hx => h x (List.mem_cons_of_mem a hx))]

theorem awardCollegeComps_reassign (cfg : EventCfg) (values : List Val)
    (assign : List (Nat × Nat)) (sorted : List (Nat × ResultRow))
    (cs : List CollegeComp) :
    awardCollegeComps (sorted.map (reassignRow cfg values assign)) cs
      = awardCollegeComps sorted cs := by
  unfold awardCollegeComps
  rw [List.enum_map, List.foldl_map]
  apply List.foldl_ext
  intro cs p _
  dsimp only
  apply List.map_congr_left
  intro c _
  have h1 : (Prod.map id (reassignRow cfg values assign) p).2.2.competitor_id
      = p.2.2.competitor_id := by
    show (reassignRow cfg values assign p.2).2.competitor_id
      = p.2.2.competitor_id
    rw [reassignRow_cid]
  have h2 : (Prod.map id (reassignRow cfg values assign) p).1 = p.1 := rfl
  rw [h1, h2]

theorem awardProComps_reassign (cfg : EventCfg) (values : List Val)
    (assign : List (Nat × Nat)) (sorted : List (Nat × ResultRow))
    (cs : List ProComp) :
    awardProComps cfg (sorted.map (reassignRow cfg values assign)) cs
      = awardProComps cfg sorted cs := by
  unfold awardProComps
  rw [List.enum_map, List.foldl_map]
  apply List.foldl_ext
  intro cs p _
  dsimp only
  apply List.map_congr_left
  intro c _
  have h1 : (Prod.map id (reassignRow cfg values assign) p).2.2.competitor_id
      = p.2.2.competitor_id := by
    show (reassignRow cfg values assign p.2).2.competitor_id
      = p.2.2.competitor_id
    rw [reassignRow_cid]
  have h2 : (Prod.map id (reassignRow cfg values assign) p).1 = p.1 := rfl
  rw [h1, h2]

theorem touchedTeamIds_reassign (cfg : EventCfg) (values : List Val)
    (assign : List (Nat × Nat)) (sorted : List (Nat × ResultRow))
    (cs : List CollegeComp) :
    touchedTeamIds (sorted.map (reassignRow cfg values assign)) cs
      = touchedTeamIds sorted cs := by
  unfold touchedTeamIds
  have hpt : ∀ c ∈ cs,
      ((sorted.map (reassignRow cfg values assign)).any
        (fun p => p.2.competitor_id == c.id))
      = (sorted.any (fun p => p.2.competitor_id == c.id)) := by
    intro c _
    rw [List.any_map]
    apply list_any_congr
    intro q _
    show ((reassignRow cfg values assign q).2.competitor_id == c.id)
      = (q.2.competitor_id == c.id)
    rw [reassignRow_cid]
  rw [List.filter_congr hpt]

theorem ranked_mem_enum (cfg : EventCfg) (rs1 : List ResultRow)
    {q : Nat × ResultRow} (h : q ∈ rankedOf cfg rs1) : q ∈ rs1.enum := by
  unfold rankedOf at h
  have h3 := (sortStable_perm (resultLt cfg) (completedEnum rs1)).mem_iff.mp h
  unfold completedEnum at h3
  exact (List.mem_filter.mp h3).1

theorem assignOf_keys_nodup (cfg : EventCfg) (rs1 : List ResultRow) :
    ((assignOf cfg rs1).map Prod.fst).Nodup := by
  unfold assignOf
  rw [List.map_map]
  have h : ((rankedOf cfg rs1).enum.map (Prod.fst ∘
        (fun p : Nat × Nat × ResultRow => (p.2.1, p.1 + 1))))
      = (rankedOf cfg rs1).map Prod.fst := by
    have h2 : (Prod.fst ∘
          (fun p : Nat × Nat × ResultRow => (p.2.1, p.1 + 1)))
        = (Prod.fst ∘ (Prod.snd :
            Nat × Nat × ResultRow → Nat × ResultRow)) := rfl
    rw [h2, ← List.map_map, List.enum_map_snd]
  rw [h]
  unfold rankedOf
  exact sorted_fst_nodup cfg rs1

theorem assignOf_keys_lt (cfg : EventCfg) (rs1 : List ResultRow) :
    ∀ p ∈ assignOf cfg rs1, p.1 < rs1.length := by
  intro p hp
  unfold assignOf at hp
  rcases List.mem_map.mp hp with ⟨q, hq, rfl⟩
  exact mem_enum_fst_lt (ranked_mem_enum cfg rs1 (mem_enum_snd hq))

theorem resultsOf_pa_nonneg (cfg : EventCfg) (rs1 : List ResultRow)
    (hzero : ∀ r ∈ rs1, r.points_awarded = 0) :
    ∀ r ∈ resultsOf cfg rs1, 0 ≤ r.points_awarded := by
  intro r hr
  unfold resultsOf at hr
  rcases List.mem_map.mp hr with ⟨p, hp, rfl⟩
  cases hl : (assignOf cfg rs1).lookup p.1 with
  | none =>
    rw [applyAssignRow_none cfg _ _ p.1 p.2 hl, hzero p.2 (mem_enum_snd hp)]
  | some pos =>
    by_cases hc : (cfg.event_type == "college") = true
    · rw [applyAssignRow_some_college cfg _ _ p.1 p.2 pos hl hc]
      exact PLACEMENT_POINTS_nonneg pos
    · rw [applyAssignRow_some_pro cfg _ _ p.1 p.2 pos hl hc]
      show (0 : Int) ≤ p.2.points_awarded
      rw [hzero p.2 (mem_enum_snd hp)]

theorem resultsOf_payout_nonneg (cfg : EventCfg) (rs1 : List ResultRow)
    (hpay : ∀ p ∈ cfg.payouts, 0 ≤ p.2)
    (hzero : ∀ r ∈ rs1, r.payout_amount = 0) :
    ∀ r ∈ resultsOf cfg rs1, 0 ≤ r.payout_amount := by
  intro r hr
  unfold resultsOf at hr
  rcases List.mem_map.mp hr with ⟨p, hp, rfl⟩
  cases hl : (assignOf cfg rs1).lookup p.1 with
  | none =>
    rw [applyAssignRow_none cfg _ _ p.1 p.2 hl, hzero p.2 (mem_enum_snd hp)]
  | some pos =>
    by_cases hc : (cfg.event_type == "college") = true
    · rw [applyAssignRow_some_college cfg _ _ p.1 p.2 pos hl hc]
      show (0 : Val) ≤ p.2.payout_amount
      rw [hzero p.2 (mem_enum_snd hp)]
    · rw [applyAssignRow_some_pro cfg _ _ p.1 p.2 pos hl hc]
      exact get_payout_nonneg cfg hpay pos

theorem sub_award_sum_college (cfg : EventCfg) (rs1 : List ResultRow)
    (hc : (cfg.event_type == "college") = true)
    (hzero : ∀ r ∈ rs1, r.points_awarded = 0) (cid : Nat) :
    (((resultsOf cfg rs1).filter (fun r => cid == r.competitor_id)).map
        (fun r => r.points_awarded)).sum
      = (((rankedOf cfg rs1).enum.filter
            (fun p => cid == p.2.2.competitor_id)).map
          (fun p => PLACEMENT_POINTS (p.1 + 1))).sum := by
  have h1 : (((resultsOf cfg rs1).filter (fun r => cid == r.competitor_id)).map
        (fun r => r.points_awarded)).sum
      = (rs1.enum.map (fun p : Nat × ResultRow =>
          match (assignOf cfg rs1).lookup p.1 with
          | some pos => if cid == (rs1.getD p.1 dummyRow).competitor_id
              then PLACEMENT_POINTS pos else 0
          | none => (0 : Int))).sum := by
    rw [sum_map_filter_eq]
    unfold resultsOf
    rw [List.map_map]
    refine congrArg List.sum (List.map_congr_left ?_)
    intro p hp
    show (if cid == (applyAssignRow cfg (outlierValues cfg (rankedOf cfg rs1))
            (assignOf cfg rs1) p.1 p.2).competitor_id
          then (applyAssignRow cfg (outlierValues cfg (rankedOf cfg rs1))
            (assignOf cfg rs1) p.1 p.2).points_awarded else 0)
        = match (assignOf cfg rs1).lookup p.1 with
          | some pos => if cid == (rs1.getD p.1 dummyRow).competitor_id
              then PLACEMENT_POINTS pos else 0
          | none => (0 : Int)
    rw [(applyAssignRow_fields cfg (outlierValues cfg (rankedOf cfg rs1))
          (assignOf cfg rs1) p.1 p.2).2.2.2]
    cases hl : (assignOf cfg rs1).lookup p.1 with
    | none =>
      rw [applyAssignRow_none cfg _ _ p.1 p.2 hl,
        hzero p.2 (mem_enum_snd hp)]
      simp
    | some pos =>
      rw [applyAssignRow_some_college cfg _ _ p.1 p.2 pos hl hc]
      dsimp only
      rw [mem_enum_getD dummyRow hp]
  have h2 : (rs1.enum.map (fun p : Nat × ResultRow =>
        match (assignOf cfg rs1).lookup p.1 with
        | some pos => if cid == (rs1.getD p.1 dummyRow).competitor_id
            then PLACEMENT_POINTS pos else 0
        | none => (0 : Int))).sum
      = ((List.range rs1.length).map (fun i =>
          match (assignOf cfg rs1).lookup i with
          | some pos => if cid == (rs1.getD i dummyRow).competitor_id
              then PLACEMENT_POINTS pos else 0
          | none => (0 : Int))).sum := by
    rw [enum_map_getD rs1 dummyRow]
  have h3 : ((List.range rs1.length).map (fun i =>
        match (assignOf cfg rs1).lookup i with
        | some pos => if cid == (rs1.getD i dummyRow).competitor_id
            then PLACEMENT_POINTS pos else 0
        | none => (0 : Int))).sum
      = ((assignOf cfg rs1).map (fun p =>
          if cid == (rs1.getD p.1 dummyRow).competitor_id
          then PLACEMENT_POINTS p.2 else 0)).sum :=
    sum_lookup_range
      (fun i pos => if cid == (rs1.getD i dummyRow).competitor_id
        then PLACEMENT_POINTS pos else 0)
      rs1.length (assignOf cfg rs1) (assignOf_keys_nodup cfg rs1)
      (assignOf_keys_lt cfg rs1)
  have h4 : ((assignOf cfg rs1).map (fun p =>
        if cid == (rs1.getD p.1 dummyRow).competitor_id
        then PLACEMENT_POINTS p.2 else 0)).sum
      = (((rankedOf cfg rs1).enum.filter
            (fun p => cid == p.2.2.competitor_id)).map
          (fun p => PLACEMENT_POINTS (p.1 + 1))).sum := by
    rw [sum_map_filter_eq]
    unfold assignOf
    rw [List.map_map]
    refine congrArg List.sum (List.map_congr_left ?_)
    intro q hq
    show (if cid == (rs1.getD q.2.1 dummyRow).competitor_id
          then PLACEMENT_POINTS (q.1 + 1) else 0)
        = (if cid == q.2.2.competitor_id
          then PLACEMENT_POINTS (q.1 + 1) else 0)
    rw [mem_enum_getD dummyRow (ranked_mem_enum cfg rs1 (mem_enum_snd hq))]
  exact h1.trans (h2.trans (h3.trans h4))

theorem sub_award_sum_pro (cfg : EventCfg) (rs1 : List ResultRow)
    (hc : ¬(cfg.event_type == "college") = true)
    (hzero : ∀ r ∈ rs1, r.payout_amount = 0) (cid : Nat) :
    (((resultsOf cfg rs1).filter (fun r => cid == r.competitor_id)).map
        (fun r => r.payout_amount)).sum
      = (((rankedOf cfg rs1).enum.filter
            (fun p => cid == p.2.2.competitor_id)).map
          (fun p => cfg.get_payout_for_position (p.1 + 1))).sum := by
  have h1 : (((resultsOf cfg rs1).filter (fun r => cid == r.competitor_id)).map
        (fun r => r.payout_amount)).sum
      = (rs1.enum.map (fun p : Nat × ResultRow =>
          match (assignOf cfg rs1).lookup p.1 with
          | some pos => if cid == (rs1.getD p.1 dummyRow).competitor_id
              then cfg.get_payout_for_position pos else 0
          | none => (0 : Val))).sum := by
    rw [sum_map_filter_eq]
    unfold resultsOf
    rw [List.map_map]
    refine congrArg List.sum (List.map_congr_left ?_)
    intro p hp
    show (if cid == (applyAssignRow cfg (outlierValues cfg (rankedOf cfg rs1))
            (assignOf cfg rs1) p.1 p.2).competitor_id
          then (applyAssignRow cfg (outlierValues cfg (rankedOf cfg rs1))
            (assignOf cfg rs1) p.1 p.2).payout_amount else 0)
        = match (assignOf cfg rs1).lookup p.1 with
          | some pos => if cid == (rs1.getD p.1 dummyRow).competitor_id
              then cfg.get_payout_for_position pos else 0
          | none => (0 : Val)
    rw [(applyAssignRow_fields cfg (outlierValues cfg (rankedOf cfg rs1))
          (assignOf cfg rs1) p.1 p.2).2.2.2]
    cases hl : (assignOf cfg rs1).lookup p.1 with
    | none =>
      rw [applyAssignRow_none cfg _ _ p.1 p.2 hl,
        hzero p.2 (mem_enum_snd hp)]
      simp
    | some pos =>
      rw [applyAssignRow_some_pro cfg _ _ p.1 p.2 pos hl hc]
      dsimp only
      rw [mem_enum_getD dummyRow hp]
  have h2 : (rs1.enum.map (fun p : Nat × ResultRow =>
        match (assignOf cfg rs1).lookup p.1 with
        | some pos => if cid == (rs1.getD p.1 dummyRow).competitor_id
            then cfg.get_payout_for_position pos else 0
        | none => (0 : Val))).sum
      = ((List.range rs1.length).map (fun i =>
          match (assignOf cfg rs1).lookup i with
          | some pos => if cid == (rs1.getD i dummyRow).competitor_id
              then cfg.get_payout_for_position pos else 0
          | none => (0 : Val))).sum := by
    rw [enum_map_getD rs1 dummyRow]
  have h3 : ((List.range rs1.length).map (fun i =>
        match (assignOf cfg rs1).lookup i with
        | some pos => if cid == (rs1.getD i dummyRow).competitor_id
            then cfg.get_payout_for_position pos else 0
        | none => (0 : Val))).sum
      = ((assignOf cfg rs1).map (fun p =>
          if cid == (rs1.getD p.1 dummyRow).competitor_id
          then cfg.get_payout_for_position p.2 else 0)).sum :=
    sum_lookup_range
      (fun i pos => if cid == (rs1.getD i dummyRow).competitor_id
        then cfg.get_payout_for_position pos else 0)
      rs1.length (assignOf cfg rs1) (assignOf_keys_nodup cfg rs1)
      (assignOf_keys_lt cfg rs1)
  have h4 : ((assignOf cfg rs1).map (fun p =>
        if cid == (rs1.getD p.1 dummyRow).competitor_id
        then cfg.get_payout_for_position p.2 else 0)).sum
      = (((rankedOf cfg rs1).enum.filter
            (fun p => cid == p.2.2.competitor_id)).map
          (fun p => cfg.get_payout_for_position (p.1 + 1))).sum := by
    rw [sum_map_filter_eq]
    unfold assignOf
    rw [List.map_map]
    refine congrArg List.sum (List.map_congr_left ?_)
    intro q hq
    show (if cid == (rs1.getD q.2.1 dummyRow).competitor_id
          then cfg.get_payout_for_position (q.1 + 1) else 0)
        = (if cid == q.2.2.competitor_id
          then cfg.get_payout_for_position (q.1 + 1) else 0)
    rw [mem_enum_getD dummyRow (ranked_mem_enum cfg rs1 (mem_enum_snd hq))]
  exact h1.trans (h2.trans (h3.trans h4))

theorem undo_award_cancel_college (cfg : EventCfg) (rs1 : List ResultRow)
    (cs : List CollegeComp)
    (hc : (cfg.event_type == "college") = true)
    (hzero : ∀ r ∈ rs1, r.points_awarded = 0)
    (hcs : ∀ c ∈ cs, 0 ≤ c.individual_points) :
    undoCollegeComps (resultsOf cfg rs1)
        (awardCollegeComps (rankedOf cfg rs1) cs) = cs := by
  rw [awardCollegeComps_eq_map, undoCollegeComps_eq_map, List.map_map]
  have hpt : ∀ c ∈ cs,
      ((fun c => (resultsOf cfg rs1).foldl (fun c r => undoStepC r c) c) ∘
        (fun c => (rankedOf cfg rs1).enum.foldl
          (fun c p => awardStepC p c) c)) c
      = c := by
    intro c hcm
    rw [Function.comp_apply, awardFoldC]
    refine (undoFoldC (resultsOf cfg rs1) _ c.individual_points (hcs c hcm)
      (resultsOf_pa_nonneg cfg rs1 hzero) ?_).trans ?_
    · show c.individual_points
          + (((rankedOf cfg rs1).enum.filter
              (fun p => c.id == p.2.2.competitor_id)).map
            (fun p => PLACEMENT_POINTS (p.1 + 1))).sum
        = c.individual_points
          + (((resultsOf cfg rs1).filter
              (fun r => c.id == r.competitor_id)).map
            (fun r => r.points_awarded)).sum
      rw [sub_award_sum_college cfg rs1 hc hzero c.id]
    · rfl
  rw [List.map_congr_left hpt, List.map_id']

theorem undo_award_cancel_pro (cfg : EventCfg) (rs1 : List ResultRow)
    (cs : List ProComp)
    (hc : ¬(cfg.event_type == "college") = true)
    (hpay : ∀ p ∈ cfg.payouts, 0 ≤ p.2)
    (hzero : ∀ r ∈ rs1, r.payout_amount = 0)
    (hcs : ∀ c ∈ cs, 0 ≤ c.total_earnings) :
    undoProComps (resultsOf cfg rs1)
        (awardProComps cfg (rankedOf cfg rs1) cs) = cs := by
  rw [awardProComps_eq_map, undoProComps_eq_map, List.map_map]
  have hpt : ∀ c ∈ cs,
      ((fun c => (resultsOf cfg rs1).foldl (fun c r => undoStepP r c) c) ∘
        (fun c => (rankedOf cfg rs1).enum.foldl
          (fun c p => awardStepP cfg p c) c)) c
      = c := by
    intro c hcm
    rw [Function.comp_apply, awardFoldP]
    refine (undoFoldP (resultsOf cfg rs1) _ c.total_earnings (hcs c hcm)
      (resultsOf_payout_nonneg cfg rs1 hpay hzero) ?_).trans ?_
    · show c.total_earnings
          + (((rankedOf cfg rs1).enum.filter
              (fun p => c.id == p.2.2.competitor_id)).map
            (fun p => cfg.get_payout_for_position (p.1 + 1))).sum
        = c.total_earnings
          + (((resultsOf cfg rs1).filter
              (fun r => c.id == r.competitor_id)).map
            (fun r => r.payout_amount)).sum
      rw [sub_award_sum_pro cfg rs1 hc hzero c.id]
    · rfl
  rw [List.map_congr_left hpt, List.map_id']

theorem teams_map_idem (cc : List CollegeComp) (touched : List Nat)
    (ts : List TeamRow) :
    (ts.map (fun t => if touched.contains t.id then
        { t with total_points := recalculate_points cc t.id } else t)).map
      (fun t => if touched.contains t.id then
        { t with total_points := recalculate_points cc t.id } else t)
      = ts.map (fun t => if touched.contains t.id then
          { t with total_points := recalculate_points cc t.id } else t) := by
  rw [List.map_map]
  apply List.map_congr_left
  intro t _
  rw [Function.comp_apply]
  by_cases h : (touched.contains t.id) = true
  · rw [if_pos h]
    rw [if_pos (show (touched.contains
        ({ t with total_points := recalculate_points cc t.id } :
          TeamRow).id) = true from h)]
  · rw [if_neg h, if_neg h]

theorem calculate_positions_empty_char (cfg : EventCfg) (s : ScoringState)
    (hemp : (completedEnum (s.results.map (undoRow cfg))).isEmpty = true) :
    calculate_positions cfg s
      = { s with results := s.results.map (undoRow cfg),
                 collegeComps := if cfg.event_type == "college" then
                     undoCollegeComps s.results s.collegeComps
                   else s.collegeComps,
                 proComps := if cfg.event_type == "college" then s.proComps
                   else undoProComps s.results s.proComps,
                 eventStatus := "in_progress" } := by
  unfold calculate_positions
  dsimp only
  rw [if_pos hemp]

theorem calculate_positions_main_char (cfg : EventCfg) (s : ScoringState)
    (hemp : (completedEnum (s.results.map (undoRow cfg))).isEmpty = false) :
    calculate_positions cfg s
      = { results := resultsOf cfg (s.results.map (undoRow cfg)),
          collegeComps :=
            if cfg.event_type == "college" then
              awardCollegeComps (rankedOf cfg (s.results.map (undoRow cfg)))
                (undoCollegeComps s.results s.collegeComps)
            else s.collegeComps,
          proComps :=
            if cfg.event_type == "college" then s.proComps
            else
              awardProComps cfg (rankedOf cfg (s.results.map (undoRow cfg)))
                (undoProComps s.results s.proComps),
          teams :=
            if cfg.event_type == "college" then
              s.teams.map (fun t =>
                if (touchedTeamIds
                    (rankedOf cfg (s.results.map (undoRow cfg)))
                    (awardCollegeComps
                      (rankedOf cfg (s.results.map (undoRow cfg)))
                      (undoCollegeComps s.results s.collegeComps))).contains
                    t.id then
                  { t with total_points := recalculate_points (awardCollegeComps (rankedOf cfg (s.results.map (undoRow cfg))) (undoCollegeComps s.results s.collegeComps)) t.id }
                else t)
            else s.teams,
          eventStatus := "completed" } := by
  unfold calculate_positions resultsOf assignOf rankedOf
  dsimp only
  rw [if_neg (by rw [hemp]; exact Bool.false_ne_true)]
  by_cases hc : (cfg.event_type == "college") = true
  · repeat rw [if_pos hc]
  · repeat rw [if_neg hc]

/-- C1: event finalization is idempotent.  Starting from competitor
rows with nonnegative accumulated points/earnings and a nonnegative
payout table, running `_calculate_positions` twice produces exactly the
state a single run produces: every result row's `final_position`,
`points_awarded`, `payout_amount` and flag, every competitor's
`individual_points`/`total_earnings`, every team total and the event
status are unchanged by the second run, because the undo pass subtracts
exactly the previously awarded amounts (no clamp ever binds) and the
re-ranking reproduces the same order and positions. -/
theorem c1_finalize_idempotent (cfg : EventCfg) (s : ScoringState)
    (hcc : ∀ c ∈ s.collegeComps, 0 ≤ c.individual_points)
    (hpc : ∀ c ∈ s.proComps, 0 ≤ c.total_earnings)
    (hpay : ∀ p ∈ cfg.payouts, 0 ≤ p.2) :
    calculate_positions cfg (calculate_positions cfg s)
      = calculate_positions cfg s := by
  have hfix : ∀ r ∈ s.results.map (undoRow cfg), undoRow cfg r = r := by
    intro r hr
    rcases List.mem_map.mp hr with ⟨r0, _, rfl⟩
    exact undoRow_idem cfg r0
  have hmap1 : (s.results.map (undoRow cfg)).map (undoRow cfg)
      = s.results.map (undoRow cfg) := by
    rw [List.map_congr_left hfix, List.map_id']
  by_cases hemp : (completedEnum (s.results.map (undoRow cfg))).isEmpty = true
  · rw [calculate_positions_empty_char cfg s hemp]
    refine (calculate_positions_empty_char cfg _ ?_).trans ?_
    · show (completedEnum ((s.results.map (undoRow cfg)).map
          (undoRow cfg))).isEmpty = true
      rw [hmap1]
      exact hemp
    · dsimp only
      by_cases hc : (cfg.event_type == "college") = true
      · repeat rw [if_pos hc]
        rw [hmap1]
        rw [undoCollegeComps_zero (s.results.map (undoRow cfg))
          (fun r hr => by
            rcases List.mem_map.mp hr with ⟨r0, _, rfl⟩
            exact undoRow_pa cfg r0 hc)
          (undoCollegeComps s.results s.collegeComps)]
      · repeat rw [if_neg hc]
        rw [hmap1]
        rw [undoProComps_zero (s.results.map (undoRow cfg))
          (fun r hr => by
            rcases List.mem_map.mp hr with ⟨r0, _, rfl⟩
            exact undoRow_payout cfg r0 hc)
          (undoProComps s.results s.proComps)]
  · rw [Bool.not_eq_true] at hemp
    have hrank' : rankedOf cfg
          ((resultsOf cfg (s.results.map (undoRow cfg))).map (undoRow cfg))
        = (rankedOf cfg (s.results.map (undoRow cfg))).map
            (reassignRow cfg
              (outlierValues cfg (rankedOf cfg (s.results.map (undoRow cfg))))
              (assignOf cfg (s.results.map (undoRow cfg)))) :=
      ranked_reassign cfg _ _ (s.results.map (undoRow cfg))
    have hval' : outlierValues cfg (rankedOf cfg
          ((resultsOf cfg (s.results.map (undoRow cfg))).map (undoRow cfg)))
        = outlierValues cfg (rankedOf cfg (s.results.map (undoRow cfg))) := by
      rw [hrank']
      exact values_reassign cfg _ _ (rankedOf cfg (s.results.map (undoRow cfg)))
    have hasg' : assignOf cfg
          ((resultsOf cfg (s.results.map (undoRow cfg))).map (undoRow cfg))
        = assignOf cfg (s.results.map (undoRow cfg)) := by
      unfold assignOf
      rw [hrank']
      exact assign_reassign cfg _ _ (rankedOf cfg (s.results.map (undoRow cfg)))
    have hres' : resultsOf cfg
          ((resultsOf cfg (s.results.map (undoRow cfg))).map (undoRow cfg))
        = resultsOf cfg (s.results.map (undoRow cfg)) := by
      show ((resultsOf cfg (s.results.map (undoRow cfg))).map
            (undoRow cfg)).enum.map
          (fun p => applyAssignRow cfg
            (outlierValues cfg (rankedOf cfg
              ((resultsOf cfg (s.results.map (undoRow cfg))).map
                (undoRow cfg))))
            (assignOf cfg
              ((resultsOf cfg (s.results.map (undoRow cfg))).map
                (undoRow cfg))) p.1 p.2)
        = resultsOf cfg (s.results.map (undoRow cfg))
      rw [hval', hasg']
      exact results_reassign cfg _ _ (s.results.map (undoRow cfg)) hfix
    rw [calculate_positions_main_char cfg s hemp]
    refine (calculate_positions_main_char cfg _ ?_).trans ?_
    · show (completedEnum ((resultsOf cfg (s.results.map (undoRow cfg))).map
          (undoRow cfg))).isEmpty = false
      have hkey : completedEnum
            ((resultsOf cfg (s.results.map (undoRow cfg))).map (undoRow cfg))
          = (completedEnum (s.results.map (undoRow cfg))).map
              (reassignRow cfg
                (outlierValues cfg
                  (rankedOf cfg (s.results.map (undoRow cfg))))
                (assignOf cfg (s.results.map (undoRow cfg)))) :=
        completed_reassign cfg _ _ (s.results.map (undoRow cfg))
      rw [hkey]
      rw [List.isEmpty_eq_false] at hemp ⊢
      intro hcontra
      exact hemp (List.map_eq_nil_iff.mp hcontra)
    · dsimp only
      by_cases hc : (cfg.event_type == "college") = true
      · repeat rw [if_pos hc]
        have hzero : ∀ r ∈ s.results.map (undoRow cfg),
            r.points_awarded = 0 := by
          intro r hr
          rcases List.mem_map.mp hr with ⟨r0, _, rfl⟩
          exact undoRow_pa cfg r0 hc
        have hcs1 : ∀ c ∈ undoCollegeComps s.results s.collegeComps,
            0 ≤ c.individual_points :=
          undoCollegeComps_nonneg s.results s.collegeComps hcc
        rw [hres', hrank']
        rw [undo_award_cancel_college cfg (s.results.map (undoRow cfg))
          (undoCollegeComps s.results s.collegeComps) hc hzero hcs1]
        rw [awardCollegeComps_reassign cfg
          (outlierValues cfg (rankedOf cfg (s.results.map (undoRow cfg))))
          (assignOf cfg (s.results.map (undoRow cfg)))
          (rankedOf cfg (s.results.map (undoRow cfg)))
          (undoCollegeComps s.results s.collegeComps)]
        rw [touchedTeamIds_reassign cfg
          (outlierValues cfg (rankedOf cfg (s.results.map (undoRow cfg))))
          (assignOf cfg (s.results.map (undoRow cfg)))
          (rankedOf cfg (s.results.map (undoRow cfg)))
          (awardCollegeComps (rankedOf cfg (s.results.map (undoRow cfg)))
            (undoCollegeComps s.results s.collegeComps))]
        rw [teams_map_idem
          (awardCollegeComps (rankedOf cfg (s.results.map (undoRow cfg)))
            (undoCollegeComps s.results s.collegeComps))
          (touchedTeamIds (rankedOf cfg (s.results.map (undoRow cfg)))
            (awardCollegeComps (rankedOf cfg (s.results.map (undoRow cfg)))
              (undoCollegeComps s.results s.collegeComps)))
          s.teams]
      · repeat rw [if_neg hc]
        have hzero : ∀ r ∈ s.results.map (undoRow cfg),
            r.payout_amount = 0 := by
          intro r hr
          rcases List.mem_map.mp hr with ⟨r0, _, rfl⟩
          exact undoRow_payout cfg r0 hc
        have hps1 : ∀ c ∈ undoProComps s.results s.proComps,
            0 ≤ c.total_earnings :=
          undoProComps_nonneg s.results s.proComps hpc
        rw [hres', hrank']
        rw [undo_award_cancel_pro cfg (s.results.map (undoRow cfg))
          (undoProComps s.results s.proComps) hc hpay hzero hps1]
        rw [awardProComps_reassign cfg
          (outlierValues cfg (rankedOf cfg (s.results.map (undoRow cfg))))
          (assignOf cfg (s.results.map (undoRow cfg)))
          (rankedOf cfg (s.results.map (undoRow cfg)))
          (undoProComps s.results s.proComps)]

theorem c1_finalize_idempotent_witness :
    calculate_positions cfgCollege (calculate_positions cfgCollege stC1)
      = calculate_positions cfgCollege stC1 :=
  c1_finalize_idempotent cfgCollege stC1 (by decide) (by decide) (by decide)

end ProAm
